import Mathlib

/-!
# Verification of the diagram-master Draw.io generator

A shallow embedding of `src/drawio-generator.js` (class `DrawioGenerator`)
and `src/index.js` (class `DrawioMCPServer`) of the diagram-master
repository, together with theorems settling the frozen specification
claims about it.

Conventions of the embedding:
* JavaScript strings are `List Char` (abbreviated `Str`); string fields
  whose absence (`undefined`) and emptiness (`""`) are indistinguishable
  under JavaScript truthiness are modelled as `Str` with `[]` for both.
* Numbers that the generator manipulates are integers in every reachable
  computation (all layout arithmetic is integral; the only division,
  `rowWidth / 2`, has an even numerator), so they are modelled as `Int`.
* The mutable `cellId` counter of `DrawioGenerator` is an explicit state
  value (`Gen`) threaded through every operation.
* The only non-determinism, `new Date().toISOString()`, is a parameter
  (`ts`) of `generateDiagram`.
* The file system is an oracle: a boolean saying whether `fs.writeFileSync`
  succeeds, plus the message of the error it would throw.
-/

set_option maxRecDepth 20000

abbrev Str := List Char

/-- Association-list lookup keyed by `Str`, mirroring JavaScript
property access `obj[k]` (`none` plays the role of `undefined`). -/
def alookup {α : Type} (k : Str) : List (Str × α) → Option α
  | [] => none
  | (k', v) :: rest => if k' = k then some v else alookup k rest

/-- JavaScript object property assignment `obj[k] = v`: replaces the value
in place when the key exists (key order keeps the first insertion
position), appends otherwise. -/
def upsert {α : Type} (m : List (Str × α)) (k : Str) (v : α) : List (Str × α) :=
  if (alookup k m).isSome then
    m.map (fun kv => if kv.1 = k then (k, v) else kv)
  else
    m ++ [(k, v)]

/-- `s || d` for JavaScript strings: the empty string is falsy. -/
def orStr (s d : Str) : Str := if s = [] then d else s

/-- `n || d` for JavaScript numbers held in optional fields: both
`undefined` and `0` are falsy. -/
def orNum (n : Option Int) (d : Int) : Int :=
  match n with
  | none => d
  | some v => if v = 0 then d else v

/-- Decimal rendering of an integer, as JavaScript template literals
render the integral numbers that occur in the generator. -/
def intStr (i : Int) : Str := (toString i).toList

/-!
## XML escaping (`escapeXml`, drawio-generator.js lines 34-41)

The source applies five global single-character regex replacements in
sequence: `&`, `<`, `>`, `"`, `'`.
-/

/-- Global replacement of the single character `c` by `r`, which is what
`text.replace(/c/g, r)` does for a one-character pattern. -/
def replaceChar (c : Char) (r : Str) : Str → Str
  | [] => []
  | ch :: rest => (if ch = c then r else [ch]) ++ replaceChar c r rest

/-- `escapeXml` of drawio-generator.js: the five sequential replacements,
ampersand first. -/
def escapeXml (l : Str) : Str :=
  replaceChar '\'' "&apos;".toList
    (replaceChar '"' "&quot;".toList
      (replaceChar '>' "&gt;".toList
        (replaceChar '<' "&lt;".toList
          (replaceChar '&' "&amp;".toList l))))

/-- The per-character escaping map described by the spec: each occurrence
of a reserved character is replaced by its XML entity, all other
characters stay. Used to compare `escapeXml` against the spec's words. -/
def escChar (c : Char) : Str :=
  if c = '&' then "&amp;".toList
  else if c = '<' then "&lt;".toList
  else if c = '>' then "&gt;".toList
  else if c = '"' then "&quot;".toList
  else if c = '\'' then "&apos;".toList
  else [c]

/-- The spec-side escaping: apply `escChar` to every character. -/
def escapeSpec (l : Str) : Str := l.foldr (fun c acc => escChar c ++ acc) []

/-- Modelled from the spec: the repository contains no unescape routine
(the spec's round-trip property is stated in terms of "when unescaped"),
so this is the standard XML entity decoder for the five entities the
escaper emits: a left-to-right scan decoding `&amp;` `&lt;` `&gt;`
`&quot;` `&apos;` and copying every other character. -/
def unescapeXml : Str → Str
  | [] => []
  | c :: rest =>
    if c = '&' then
      if rest.take 4 = "amp;".toList then '&' :: unescapeXml (rest.drop 4)
      else if rest.take 3 = "lt;".toList then '<' :: unescapeXml (rest.drop 3)
      else if rest.take 3 = "gt;".toList then '>' :: unescapeXml (rest.drop 3)
      else if rest.take 5 = "quot;".toList then '"' :: unescapeXml (rest.drop 5)
      else if rest.take 5 = "apos;".toList then '\'' :: unescapeXml (rest.drop 5)
      else c :: unescapeXml rest
    else c :: unescapeXml rest
termination_by l => l.length
decreasing_by
  all_goals simp [List.length_drop]
  all_goals omega

/-!
## Cell factory (`DrawioGenerator`, drawio-generator.js lines 6-118)
-/

/-- The mutable state of a `DrawioGenerator` instance: the `cellId`
counter, initialised to 2 by the constructor. -/
structure Gen where
  cellId : Nat
deriving DecidableEq

/-- A fresh generator, as produced by `new DrawioGenerator()`. -/
def Gen.fresh : Gen := ⟨2⟩

/-- `getNextId`: returns the current counter as a string and increments. -/
def getNextId (g : Gen) : Str × Gen :=
  (intStr g.cellId, ⟨g.cellId + 1⟩)

/-- One `mxCell`, recording exactly the arguments `createCell` receives
(with the identifier already resolved).  The source stores the rendered
XML text; `cellXml` below performs that rendering, so a cell plus
`cellXml` is the same data as the source's `{ id, xml }` pair. -/
structure Cell where
  id : Str
  value : Str
  style : Str
  geometry : Str
  parent : Str
  vertex : Bool
  edge : Bool
  source : Option Str
  target : Option Str
deriving DecidableEq

/-- The string assembly of `createCell` (lines 43-82): attribute by
attribute, with truthiness guards on `value`, `style` and `geometry`. -/
def cellXml (c : Cell) : Str :=
  "      <mxCell id=\"".toList ++ c.id ++ "\" ".toList
  ++ (if c.value = [] then [] else "value=\"".toList ++ escapeXml c.value ++ "\" ".toList)
  ++ (if c.style = [] then [] else "style=\"".toList ++ c.style ++ "\" ".toList)
  ++ (if c.vertex then "vertex=\"1\" ".toList else [])
  ++ (if c.edge then "edge=\"1\" ".toList else [])
  ++ "parent=\"".toList ++ c.parent ++ "\"".toList
  ++ (match c.source with
      | none => []
      | some s => " source=\"".toList ++ s ++ "\"".toList)
  ++ (match c.target with
      | none => []
      | some t => " target=\"".toList ++ t ++ "\"".toList)
  ++ ">\n".toList
  ++ (if c.geometry = [] then []
      else "        <mxGeometry ".toList ++ c.geometry ++ " />\n".toList)
  ++ "      </mxCell>".toList

/-- `createCell`: allocates the next identifier when `id` is null,
otherwise uses the given one. -/
def createCell (g : Gen) (value style geometry : Str) (id : Option Str)
    (parent : Str) (vertex edge : Bool) (source target : Option Str) :
    Cell × Gen :=
  match id with
  | some i =>
    ({ id := i, value := value, style := style, geometry := geometry,
       parent := parent, vertex := vertex, edge := edge,
       source := source, target := target }, g)
  | none =>
    let (i, g') := getNextId g
    ({ id := i, value := value, style := style, geometry := geometry,
       parent := parent, vertex := vertex, edge := edge,
       source := source, target := target }, g')

/-- The fixed shape-style registry (`this.shapes`, lines 9-27). -/
def shapesTable : List (Str × Str) :=
  [ ("rectangle".toList, "rounded=0;whiteSpace=wrap;html=1;".toList),
    ("roundedRectangle".toList, "rounded=1;whiteSpace=wrap;html=1;".toList),
    ("ellipse".toList, "ellipse;whiteSpace=wrap;html=1;".toList),
    ("diamond".toList, "rhombus;whiteSpace=wrap;html=1;".toList),
    ("parallelogram".toList, "shape=parallelogram;perimeter=parallelogramPerimeter;whiteSpace=wrap;html=1;".toList),
    ("cylinder".toList, "shape=cylinder3;whiteSpace=wrap;html=1;boundedLbl=1;backgroundOutline=1;".toList),
    ("hexagon".toList, "shape=hexagon;perimeter=hexagonPerimeter2;whiteSpace=wrap;html=1;".toList),
    ("cloud".toList, "ellipse;shape=cloud;whiteSpace=wrap;html=1;".toList),
    ("document".toList, "shape=document;whiteSpace=wrap;html=1;boundedLbl=1;".toList),
    ("process".toList, "rounded=0;whiteSpace=wrap;html=1;".toList),
    ("decision".toList, "rhombus;whiteSpace=wrap;html=1;".toList),
    ("data".toList, "shape=parallelogram;perimeter=parallelogramPerimeter;whiteSpace=wrap;html=1;".toList),
    ("terminator".toList, "rounded=1;whiteSpace=wrap;html=1;arcSize=50;".toList),
    ("delay".toList, "shape=delay;whiteSpace=wrap;html=1;".toList),
    ("database".toList, "shape=cylinder3;whiteSpace=wrap;html=1;boundedLbl=1;backgroundOutline=1;".toList),
    ("actor".toList, "shape=umlActor;verticalLabelPosition=bottom;verticalAlign=top;html=1;".toList),
    ("note".toList, "shape=note;whiteSpace=wrap;html=1;backgroundOutline=1;".toList) ]

/-- `this.shapes[type] || this.shapes.rectangle`. -/
def shapeStyle (type : Str) : Str :=
  match alookup type shapesTable with
  | some s => s
  | none => "rounded=0;whiteSpace=wrap;html=1;".toList

/-- The geometry attribute string of `createShape`:
`x="${x}" y="${y}" width="${width}" height="${height}" as="geometry"`. -/
def geomStr (x y width height : Int) : Str :=
  "x=\"".toList ++ intStr x ++ "\" y=\"".toList ++ intStr y
  ++ "\" width=\"".toList ++ intStr width ++ "\" height=\"".toList ++ intStr height
  ++ "\" as=\"geometry\"".toList

/-- Default fill colour of `createShape`. -/
def defFill : Str := "#dae8fc".toList

/-- Default stroke colour of `createShape`. -/
def defStroke : Str := "#6c8ebf".toList

/-- `createShape` (lines 84-91): registry style plus colour suffix,
explicit pixel geometry, identifier allocated by `createCell`. -/
def createShape (g : Gen) (label type : Str) (x y width height : Int)
    (fillColor strokeColor : Str) : Cell × Gen :=
  let style := shapeStyle type
    ++ "fillColor=".toList ++ fillColor ++ ";strokeColor=".toList ++ strokeColor ++ ";".toList
  createCell g label style (geomStr x y width height) none "1".toList true false none none

/-- Default connector style of `createConnector`. -/
def defEdgeStyle : Str :=
  "edgeStyle=orthogonalEdgeStyle;rounded=0;orthogonalLoop=1;jettySize=auto;html=1;".toList

/-- `createConnector` (lines 93-96): relative geometry, edge cell
referencing the two endpoint identifiers. -/
def createConnector (g : Gen) (sourceId targetId label style : Str) : Cell × Gen :=
  createCell g label style "relative=\"1\" as=\"geometry\"".toList none "1".toList
    false true (some sourceId) (some targetId)

/-- `generateDiagram` (lines 98-118): the fixed document envelope around
the ordered element list; `ts` is `new Date().toISOString()`. -/
def generateDiagram (ts : Str) (elements : List Cell) : Str :=
  "<?xml version=\"1.0\" encoding=\"UTF-8\"?>\n<mxfile host=\"app.diagrams.net\" modified=\"".toList
  ++ ts
  ++ "\" agent=\"MCP Draw.io Server\" version=\"21.0.0\" type=\"device\">\n  <diagram name=\"Page-1\" id=\"diagram1\">\n    <mxGraphModel dx=\"1434\" dy=\"764\" grid=\"1\" gridSize=\"10\" guides=\"1\" tooltips=\"1\" connect=\"1\" arrows=\"1\" fold=\"1\" page=\"1\" pageScale=\"1\" pageWidth=\"850\" pageHeight=\"1100\" math=\"0\" shadow=\"0\">\n      <root>\n        <mxCell id=\"0\" />\n        <mxCell id=\"1\" parent=\"0\" />\n".toList
  ++ (elements.map (fun e => cellXml e ++ "\n".toList)).flatten
  ++ "      </root>\n    </mxGraphModel>\n  </diagram>\n</mxfile>".toList

/-!
## Flowchart builder (`createFlowchart`, drawio-generator.js lines 120-251)
-/

/-- One flowchart step, logical fields of the request schema.  `id`,
`type` and `connectorLabel` use `[]` for an absent field (absent and
`""` behave identically under the source's truthiness tests). -/
structure Step where
  id : Str
  label : Str
  type : Str
  connectorLabel : Str
  width : Option Int
  height : Option Int
deriving DecidableEq

/-- One connection `{from, to, label}`; `from_`/`to_` stand for the
source fields `from`/`to` (`from` is reserved in Lean). -/
structure Conn where
  from_ : Str
  to_ : Str
  label : Str
deriving DecidableEq

/-- `step.id || (index + 1).toString()` (line 127). -/
def stepKey (s : Step) (index : Nat) : Str :=
  if s.id = [] then intStr (index + 1) else s.id

/-- `stepMap` population (lines 126-130): keyed by resolved id, later
duplicates overwrite in place. -/
def buildStepMap (steps : List Step) : List (Str × Step) :=
  steps.enum.foldl (fun m p => upsert m (stepKey p.2 p.1) p.2) []

/-- Whether a key counts as a JavaScript array index (canonical decimal
numeral below 2^32 - 1): such keys are enumerated first, in ascending
numeric order, by `Object.keys`. -/
def isArrayIdx (s : Str) : Bool :=
  decide (s ≠ []) && s.all (·.isDigit)
    && (decide (s.head? ≠ some '0') || decide (s = ['0']))
    && decide (s.foldl (fun n c => n * 10 + (c.toNat - 48)) 0 < 4294967295)

/-- Numeric value of a digit string. -/
def natOfDigits (s : Str) : Nat := s.foldl (fun n c => n * 10 + (c.toNat - 48)) 0

/-- Insertion into a list sorted by `natOfDigits`. -/
def insertNum (x : Str) : List Str → List Str
  | [] => [x]
  | y :: ys => if natOfDigits x ≤ natOfDigits y then x :: y :: ys else y :: insertNum x ys

/-- Sort by numeric value (keys are distinct, stability irrelevant). -/
def sortNum (l : List Str) : List Str := l.foldr insertNum []

/-- `Object.keys` enumeration order: array-index keys ascending
numerically, then the remaining keys in insertion order. -/
def objKeys (insertionOrder : List Str) : List Str :=
  sortNum (insertionOrder.filter (fun k => isArrayIdx k))
    ++ insertionOrder.filter (fun k => !(isArrayIdx k))

/-- The step ids of a flowchart in `Object.keys(stepMap)` order. -/
def uniqueIds (steps : List Step) : List Str :=
  objKeys ((buildStepMap steps).map Prod.fst)

/-- Adjacency lists initialised to `[]` for every id (lines 133-138). -/
def initAdj (ids : List Str) : List (Str × List Str) :=
  ids.map (fun id => (id, []))

/-- `graph[k].push(v)`. -/
def addEdge (adj : List (Str × List Str)) (k v : Str) : List (Str × List Str) :=
  adj.map (fun p => if p.1 = k then (p.1, p.2 ++ [v]) else p)

/-- The explicit-connection population loop (lines 142-148): each
connection guarded by `graph[conn.from] && stepMap[conn.to]` (an
initialised adjacency array is truthy and `stepMap` has exactly the
graph's keys, so the guard is key membership on both sides) adds a
forward and a reverse edge. -/
def popGraphs : List Conn →
    List (Str × List Str) × List (Str × List Str) →
    List (Str × List Str) × List (Str × List Str)
  | [], gr => gr
  | c :: rest, gr =>
    if (alookup c.from_ gr.1).isSome && (alookup c.to_ gr.1).isSome then
      popGraphs rest (addEdge gr.1 c.from_ c.to_, addEdge gr.2 c.to_ c.from_)
    else popGraphs rest gr

/-- The synthesized sequential chain (lines 150-156): an edge from each
id to the next. -/
def chainGraphs : List Str →
    List (Str × List Str) × List (Str × List Str) →
    List (Str × List Str) × List (Str × List Str)
  | [], gr => gr
  | [_], gr => gr
  | a :: b :: rest, gr => chainGraphs (b :: rest) (addEdge gr.1 a b, addEdge gr.2 b a)

/-- Graph population (lines 140-157): explicit connections when any were
declared, the sequential chain otherwise. -/
def buildGraphs (ids : List Str) (conns : List Conn) :
    List (Str × List Str) × List (Str × List Str) :=
  if conns ≠ [] then popGraphs conns (initAdj ids, initAdj ids)
  else chainGraphs ids (initAdj ids, initAdj ids)

/-- All neighbour occurrences stored in an adjacency structure; used to
bound the breadth-first traversal. -/
def adjPool (adj : List (Str × List Str)) : List Str :=
  (adj.map Prod.snd).flatten

/-- The neighbour enqueueing of the BFS inner loop (lines 184-189): each
unvisited neighbour is marked visited and appended to the queue at
`level + 1`; already-visited neighbours are skipped. -/
def pushNbrs (lvl : Nat) : List Str → List Str → List (Str × Nat) →
    List Str × List (Str × Nat)
  | [], visited, queue => (visited, queue)
  | nb :: rest, visited, queue =>
    if nb ∈ visited then pushNbrs lvl rest visited queue
    else pushNbrs lvl rest (visited ++ [nb]) (queue ++ [(nb, lvl)])

/-- The BFS `while` loop (lines 177-190), with explicit fuel.  Each
iteration pops the queue head, records its level assignment, and enqueues
its unvisited neighbours one level deeper.  Returns the assignments in
pop order together with the final visited set.  The fuel only has to
dominate the measure `queue.length + |pool not yet visited|`, which
strictly decreases every iteration (`bfs_measure` below); `bfsRun` passes
such a fuel, so the model never cuts the loop short. -/
def bfsFuel (adj : List (Str × List Str)) :
    Nat → List (Str × Nat) → List Str → List (Str × Nat) × List Str
  | _, [], visited => ([], visited)
  | 0, _ :: _, visited => ([], visited)
  | fuel + 1, (id, lvl) :: rest, visited =>
    let vq := pushNbrs (lvl + 1) ((alookup id adj).getD []) visited rest
    let r := bfsFuel adj fuel vq.2 vq.1
    ((id, lvl) :: r.1, r.2)

/-- Count of pool entries not yet visited. -/
def unvis (pool visited : List Str) : Nat :=
  (pool.filter (fun x => decide (x ∉ visited))).length

/-- The BFS loop run to completion: fuel dominating the measure. -/
def bfsRun (adj : List (Str × List Str)) (queue : List (Str × Nat))
    (visited : List Str) : List (Str × Nat) × List Str :=
  bfsFuel adj (queue.length + (adjPool adj).length) queue visited

/-- Root selection (lines 165-170): ids with empty reverse adjacency;
when none exist and there are ids, the first id is the fallback root. -/
def rootsOf (ids : List Str) (rev : List (Str × List Str)) : List Str :=
  let roots := ids.filter (fun id => ((alookup id rev).getD []).isEmpty)
  match ids with
  | [] => roots
  | i :: _ => if roots = [] then [i] else roots

/-- `Math.max(...Object.keys(nodesByLevel).map(Number), -1)`: the largest
level assigned so far, `-1` when none. -/
def maxLevel (assigned : List (Str × Nat)) : Int :=
  assigned.foldl (fun m p => max m (p.2 : Int)) (-1)

/-- The disconnected-node pass (lines 192-201): every id the traversal
never reached is appended one past the current maximum level, in
`Object.keys(stepMap)` order (the maximum is re-read after each append,
so successive unreached ids stack on fresh levels). -/
def appendUnvisited (ids visited : List Str) (assigned : List (Str × Nat)) :
    List (Str × Nat) :=
  ids.foldl
    (fun acc id =>
      if id ∈ visited then acc
      else acc ++ [(id, (maxLevel acc + 1).toNat)])
    assigned

/-- The complete level assignment of `createFlowchart`: graph build, root
selection, BFS, disconnected pass.  Pairs `(id, level)` in the order
`levels[id]` is written by the source. -/
def levelAssignments (steps : List Step) (conns : List Conn) : List (Str × Nat) :=
  let ids := uniqueIds steps
  let gr := buildGraphs ids conns
  let roots := rootsOf ids gr.2
  let r := bfsRun gr.1 (roots.map (fun id => (id, 0))) roots
  appendUnvisited ids r.2 r.1

/-- Distinct levels in ascending order (`Object.keys(nodesByLevel)`:
integer-like keys enumerate numerically ascending). -/
def insertLevel (n : Nat) : List Nat → List Nat
  | [] => [n]
  | m :: ms =>
    if n < m then n :: m :: ms
    else if n = m then m :: ms
    else m :: insertLevel n ms

/-- The sorted distinct level keys of an assignment list. -/
def levelKeys (assigned : List (Str × Nat)) : List Nat :=
  assigned.foldl (fun ks p => insertLevel p.2 ks) []

/-- `nodesByLevel` as iterated by lines 210-228: for each level key in
ascending order, the ids assigned that level in assignment order. -/
def nodesByLevel (assigned : List (Str × Nat)) : List (Nat × List Str) :=
  (levelKeys assigned).map
    (fun l => (l, (assigned.filter (fun p => p.2 = l)).map Prod.fst))

/-- The level rows of a flowchart. -/
def flowRows (steps : List Step) (conns : List Conn) : List (Nat × List Str) :=
  nodesByLevel (levelAssignments steps conns)

/-- The record a failed `stepMap` lookup falls back to (unreachable for
nodes produced by the leveling, which are always step-map keys). -/
def defaultStep : Step :=
  { id := [], label := [], type := [], connectorLabel := [], width := none, height := none }

/-- The computed position and size of one node. -/
structure Placement where
  node : Str
  level : Nat
  x : Int
  y : Int
  w : Int
  h : Int
deriving DecidableEq

/-- The coordinate computation of lines 210-222 for one row: row width
`(count - 1) * 160`, starting x `400 - rowWidth / 2`, each node at
`startRowX + index * 160`, y at `50 + level * 120`; width and height are
the step's (falsy-defaulted to 120 x 60). -/
def placeRow (stepMap : List (Str × Step)) (lvl : Nat) (rowLen : Nat)
    (nodes : List (Nat × Str)) : List Placement :=
  nodes.map (fun p =>
    let step := (alookup p.2 stepMap).getD defaultStep
    { node := p.2, level := lvl,
      x := 400 - ((rowLen : Int) - 1) * 160 / 2 + (p.1 : Int) * 160,
      y := 50 + (lvl : Int) * 120,
      w := orNum step.width 120, h := orNum step.height 60 })

/-- All placements of a flowchart, rows in ascending level order, nodes
in row order. -/
def flowPlacements (steps : List Step) (conns : List Conn) : List Placement :=
  (flowRows steps conns).flatMap
    (fun r => placeRow (buildStepMap steps) r.1 r.2.length r.2.enum)

/-- Shape creation for one row (the inner `forEach` of lines 215-227):
creates the styled shape at the computed coordinates and records the
generated id under the node's step id. -/
def shapeRow (stepMap : List (Str × Step)) (lvl : Nat) (rowLen : Nat) :
    List (Nat × Str) → Gen → List Cell × List (Str × Str) × Gen
  | [], g => ([], [], g)
  | p :: rest, g =>
    let step := (alookup p.2 stepMap).getD defaultStep
    let x : Int := 400 - ((rowLen : Int) - 1) * 160 / 2 + (p.1 : Int) * 160
    let y : Int := 50 + (lvl : Int) * 120
    let (cell, g') := createShape g step.label (orStr step.type "process".toList)
      x y (orNum step.width 120) (orNum step.height 60) defFill defStroke
    let r := shapeRow stepMap lvl rowLen rest g'
    (cell :: r.1, (p.2, cell.id) :: r.2.1, r.2.2)

/-- Shape creation over all rows (lines 210-228). -/
def shapeRows (stepMap : List (Str × Step)) :
    List (Nat × List Str) → Gen → List Cell × List (Str × Str) × Gen
  | [], g => ([], [], g)
  | r :: rest, g =>
    let a := shapeRow stepMap r.1 r.2.length r.2.enum g
    let b := shapeRows stepMap rest a.2.2
    (a.1 ++ b.1, a.2.1 ++ b.2.1, b.2.2)

/-- The explicit-connection loop (lines 231-238): one connector per
connection whose two endpoints resolved to generated ids (`stepIds`
values are generated id strings, never empty, so JavaScript truthiness
on them is `Option.isSome` here); unresolved connections are skipped. -/
def connLoop (stepIds : List (Str × Str)) : List Conn → Gen → List Cell × Gen
  | [], g => ([], g)
  | c :: rest, g =>
    match alookup c.from_ stepIds, alookup c.to_ stepIds with
    | some s, some t =>
      let e := createConnector g s t c.label defEdgeStyle
      let r := connLoop stepIds rest e.2
      (e.1 :: r.1, r.2)
    | _, _ => connLoop stepIds rest g

/-- The sequential-chain connectors of the else branch (lines 240-247):
one connector per adjacent pair of ids, labeled by the leading step's
`connectorLabel || ''`. -/
def chainLoop (stepMap : List (Str × Step)) (stepIds : List (Str × Str)) :
    List Str → Gen → List Cell × Gen
  | [], g => ([], g)
  | [_], g => ([], g)
  | a :: b :: rest, g =>
    let s := (alookup a stepIds).getD []
    let t := (alookup b stepIds).getD []
    let label := ((alookup a stepMap).map (fun st => st.connectorLabel)).getD []
    let e := createConnector g s t label defEdgeStyle
    let r := chainLoop stepMap stepIds (b :: rest) e.2
    (e.1 :: r.1, r.2)

/-- Connector creation (lines 230-248): explicit connections when any
were declared, the synthesized sequential chain otherwise. -/
def connectorPhase (stepMap : List (Str × Step)) (ids : List Str)
    (stepIds : List (Str × Str)) (conns : List Conn) (g : Gen) :
    List Cell × Gen :=
  if conns ≠ [] then connLoop stepIds conns g
  else chainLoop stepMap stepIds ids g

/-- The element list of `createFlowchart`: shapes in row order, then
connectors. -/
def createFlowchartCells (steps : List Step) (conns : List Conn) (g : Gen) :
    List Cell × Gen :=
  let stepMap := buildStepMap steps
  let ids := uniqueIds steps
  let rows := flowRows steps conns
  let a := shapeRows stepMap rows g
  let b := connectorPhase stepMap ids a.2.1 conns a.2.2
  (a.1 ++ b.1, b.2)

/-- `createFlowchart`: the serialized document. -/
def createFlowchart (steps : List Step) (conns : List Conn) (ts : Str)
    (g : Gen) : Str × Gen :=
  let r := createFlowchartCells steps conns g
  (generateDiagram ts r.1, r.2)

/-!
## Sequence diagram builder (`createSequenceDiagram`, lines 253-355)
-/

/-- One sequence interaction `{from, to, message, dashed}`. -/
structure Interaction where
  from_ : Str
  to_ : Str
  message : Str
  dashed : Bool
deriving DecidableEq

/-- The lifeline style the source substitutes into the shape's XML
(line 272; the regex `style="[^"]*"` rewrites the single style attribute,
which in the structured cell is exactly a style-field update, since the
escaped value attribute can no longer contain a double quote). -/
def lifelineStyle : Str :=
  "shape=umlLifeline;perimeter=lifelinePerimeter;whiteSpace=wrap;html=1;container=1;collapsible=0;recursiveResize=0;outlineConnect=0;".toList

/-- Style of the invisible anchor points (line 315). -/
def pointStyle : Str :=
  "shape=ellipse;fillColor=none;strokeColor=none;resizable=0;".toList

/-- Style substituted into the activation bars (line 329). -/
def activationStyle : Str := "html=1;whiteSpace=wrap;fillColor=#ffffff;".toList

/-- Base edge style of a message arrow (line 300). -/
def seqEdgeBase : Str :=
  "html=1;verticalAlign=bottom;endArrow=block;edgeStyle=elbowEdgeStyle;elbow=vertical;curved=0;rounded=0;".toList

/-- Lifeline creation (lines 262-282): one `umlLifeline` shape per
participant at `x = 100 + index * 200`, height spanning all interactions,
recording `{ id, x: x + width / 2 }` under the participant's name. -/
def lifelinesPhase (interactionCount : Nat) :
    List (Nat × Str) → Gen → List (Str × (Str × Int)) →
    List Cell × List (Str × (Str × Int)) × Gen
  | [], g, pmap => ([], pmap, g)
  | (idx, name) :: rest, g, pmap =>
    let x : Int := 100 + (idx : Int) * 200
    let s := createShape g name "umlLifeline".toList x 50 100
      ((interactionCount : Int) * 60 + 100) defFill defStroke
    let lifeline := { s.1 with style := lifelineStyle }
    let pmap' := upsert pmap name (s.1.id, x + 50)
    let r := lifelinesPhase interactionCount rest s.2 pmap'
    (lifeline :: r.1, r.2.1, r.2.2)

/-- The five cells of one resolved interaction (lines 298-348): two
invisible anchor points at the lifelines' centre x and the current y, two
activation bars 10 x 20 centred on those points 10 pixels up, and the
message connector between the activation bars. -/
def mkInteraction (srcX tgtX : Int) (itn : Interaction) (y : Int) (g : Gen) :
    List Cell × Gen :=
  let edgeStyle := seqEdgeBase
    ++ (if itn.dashed then "dashed=1;endArrow=open;".toList else "endFill=1;".toList)
  let (spId, g1) := getNextId g
  let (tpId, g2) := getNextId g1
  let sp := createCell g2 [] pointStyle (geomStr srcX y 0 0) (some spId)
    "1".toList true false none none
  let tp := createCell sp.2 [] pointStyle (geomStr tgtX y 0 0) (some tpId)
    "1".toList true false none none
  let sa := createShape tp.2 [] "rectangle".toList (srcX - 5) (y - 10) 10 20 defFill defStroke
  let srcAct := { sa.1 with style := activationStyle }
  let ta := createShape sa.2 [] "rectangle".toList (tgtX - 5) (y - 10) 10 20 defFill defStroke
  let tgtAct := { ta.1 with style := activationStyle }
  let e := createConnector ta.2 srcAct.id tgtAct.id itn.message edgeStyle
  ([sp.1, tp.1, srcAct, tgtAct, e.1], e.2)

/-- The interaction loop (lines 287-352): resolved interactions emit
their five cells and advance the running y by 60; unresolved ones are
skipped entirely. -/
def seqLoop (pmap : List (Str × (Str × Int))) :
    List Interaction → Int → Gen → List Cell × Gen
  | [], _, g => ([], g)
  | itn :: rest, y, g =>
    match alookup itn.from_ pmap, alookup itn.to_ pmap with
    | some s, some t =>
      let grp := mkInteraction s.2 t.2 itn y g
      let r := seqLoop pmap rest (y + 60) grp.2
      (grp.1 ++ r.1, r.2)
    | _, _ => seqLoop pmap rest y g

/-- The element list of `createSequenceDiagram`: lifelines, then the
interaction groups starting at `y = 50 + 80 = 130`. -/
def createSequenceDiagramCells (participants : List Str)
    (interactions : List Interaction) (g : Gen) : List Cell × Gen :=
  let lf := lifelinesPhase interactions.length participants.enum g []
  let r := seqLoop lf.2.1 interactions 130 lf.2.2
  (lf.1 ++ r.1, r.2)

/-- `createSequenceDiagram`: the serialized document. -/
def createSequenceDiagram (participants : List Str)
    (interactions : List Interaction) (ts : Str) (g : Gen) : Str × Gen :=
  let r := createSequenceDiagramCells participants interactions g
  (generateDiagram ts r.1, r.2)

/-- The horizontal centre recorded for each participant, as a pure
function of the participant list (the `x` component of
`participantIds[participant]`). -/
def seqCentersAux : List (Nat × Str) → List (Str × Int) → List (Str × Int)
  | [], acc => acc
  | (idx, name) :: rest, acc =>
    seqCentersAux rest (upsert acc name (100 + (idx : Int) * 200 + 50))

/-- Participant-name-to-centre-x map of a sequence diagram. -/
def seqCenters (participants : List Str) : List (Str × Int) :=
  seqCentersAux participants.enum []

/-!
## Network and ERD builders (lines 357-464)
-/

/-- One network node. -/
structure NetNode where
  id : Str
  label : Str
  type : Str
  x : Option Int
  y : Option Int
  width : Option Int
  height : Option Int
deriving DecidableEq

/-- `createNetworkDiagram` (lines 357-387): pass-through placement at the
caller's coordinates with falsy defaults, then connectors between
resolved node ids. -/
def createNetworkDiagramCells (nodes : List NetNode) (conns : List Conn)
    (g : Gen) : List Cell × Gen :=
  let a := nodes.foldl
    (fun (acc : List Cell × List (Str × Str) × Gen) node =>
      let s := createShape acc.2.2 (orStr node.label "Node".toList)
        (orStr node.type "rectangle".toList)
        (orNum node.x 100) (orNum node.y 100)
        (orNum node.width 120) (orNum node.height 60) defFill defStroke
      (acc.1 ++ [s.1], upsert acc.2.1 node.id s.1.id, s.2))
    ([], [], g)
  let b := conns.foldl
    (fun (acc : List Cell × Gen) c =>
      match alookup c.from_ a.2.1, alookup c.to_ a.2.1 with
      | some s, some t =>
        let e := createConnector acc.2 s t c.label defEdgeStyle
        (acc.1 ++ [e.1], e.2)
      | _, _ => acc)
    (a.1, a.2.2)
  b

/-- `createNetworkDiagram`: the serialized document. -/
def createNetworkDiagram (nodes : List NetNode) (conns : List Conn)
    (ts : Str) (g : Gen) : Str × Gen :=
  let r := createNetworkDiagramCells nodes conns g
  (generateDiagram ts r.1, r.2)

/-- One ERD entity. -/
structure Entity where
  id : Str
  name : Str
  attributes : List Str
deriving DecidableEq

/-- Header style substituted into entity headers (line 419). -/
def erdHeaderStyle : Str :=
  "rounded=0;whiteSpace=wrap;html=1;fillColor=#f5f5f5;fontWeight=bold;".toList

/-- Attribute row style (line 430). -/
def erdAttrStyle : Str :=
  "rounded=0;whiteSpace=wrap;html=1;align=left;spacingLeft=10;".toList

/-- ERD relationship connector style (line 451). -/
def erdRelStyle : Str :=
  "edgeStyle=orthogonalEdgeStyle;rounded=0;orthogonalLoop=1;jettySize=auto;html=1;endArrow=none;startArrow=none;".toList

/-- The attribute stack of one entity (lines 428-434). -/
def erdAttrs (x y0 : Int) : List (Nat × Str) → Gen → List Cell × Gen
  | [], g => ([], g)
  | (i, attr) :: rest, g =>
    let s := createShape g attr "rectangle".toList x (y0 + (i : Int) * 26) 160 26
      defFill defStroke
    let cell := { s.1 with style := erdAttrStyle }
    let r := erdAttrs x y0 rest s.2
    (cell :: r.1, r.2)

/-- The entity grid of `createERD` (lines 402-441): three entities per
row, header then attribute rows, position advancing by 250 horizontally
and 200 vertically at each wrap. -/
def erdEntities : List (Nat × Entity) → Int → Int → Gen →
    List (Str × Str) → List Cell × List (Str × Str) × Gen
  | [], _, _, g, eids => ([], eids, g)
  | (index, ent) :: rest, curX, curY, g, eids =>
    let x := if index > 0 && index % 3 = 0 then 100 else curX
    let y := if index > 0 && index % 3 = 0 then curY + 200 else curY
    let h := createShape g ent.name "rectangle".toList x y 160 30 defFill defStroke
    let header := { h.1 with style := erdHeaderStyle }
    let a := erdAttrs x (y + 30) ent.attributes.enum h.2
    let r := erdEntities rest (x + 250) y a.2 (upsert eids ent.id header.id)
    (header :: a.1 ++ r.1, r.2.1, r.2.2)

/-- The element list of `createERD`: the entity grid, then labeled
relationship connectors between resolved entity headers (lines 443-461). -/
def createERDCells (entities : List Entity) (relationships : List Conn)
    (g : Gen) : List Cell × Gen :=
  let a := erdEntities entities.enum 100 100 g []
  let b := relationships.foldl
    (fun (acc : List Cell × Gen) rel =>
      match alookup rel.from_ a.2.1, alookup rel.to_ a.2.1 with
      | some s, some t =>
        let e := createConnector acc.2 s t rel.label erdRelStyle
        (acc.1 ++ [e.1], e.2)
      | _, _ => acc)
    (a.1, a.2.2)
  b

/-- `createERD`: the serialized document. -/
def createERD (entities : List Entity) (relationships : List Conn)
    (ts : Str) (g : Gen) : Str × Gen :=
  let r := createERDCells entities relationships g
  (generateDiagram ts r.1, r.2)

/-!
## Request handler (`DrawioMCPServer`, index.js)

The transport and schema validation are external collaborators; a
`create_diagram` request arrives with a filename and data already shaped
for its diagram type (the `unknown` constructor covers every type tag
outside the five known ones).  The `custom` branch of the dispatch
(index.js line 233) calls `this.generator.createCustomDiagram`, a method
`DrawioGenerator` does not define, so in JavaScript that branch throws
`TypeError: this.generator.createCustomDiagram is not a function`, which
the surrounding `try` converts into an error result.
-/

/-- A custom-diagram shape `{id, label, type, x, y, width?, height?}`. -/
structure ShapeReq where
  id : Str
  label : Str
  type : Str
  x : Option Int
  y : Option Int
  width : Option Int
  height : Option Int
deriving DecidableEq

/-- The `data` of a `create_diagram` request, tagged by diagram type. -/
inductive DiagramData where
  | flowchart (steps : List Step) (connections : List Conn)
  | sequence (participants : List Str) (interactions : List Interaction)
  | network (nodes : List NetNode) (connections : List Conn)
  | erd (entities : List Entity) (relationships : List Conn)
  | custom (shapes : List ShapeReq) (connectors : List Conn)
  | unknown (typeName : Str)
deriving DecidableEq

/-- The `type` string of a request. -/
def DiagramData.typeName : DiagramData → Str
  | .flowchart _ _ => "flowchart".toList
  | .sequence _ _ => "sequence".toList
  | .network _ _ => "network".toList
  | .erd _ _ => "erd".toList
  | .custom _ _ => "custom".toList
  | .unknown t => t

/-- A `create_diagram` request. -/
structure Request where
  filename : Str
  data : DiagramData
deriving DecidableEq

/-- The tool result object: text content plus the optional `isError`
flag. -/
structure ToolResult where
  text : Str
  isError : Bool
deriving DecidableEq

/-- Server state: the single generator instance created by the
constructor (shared by every request) and the files written so far
(path-content pairs in write order; a rewrite appends a new pair). -/
structure ServerState where
  gen : Gen
  files : List (Str × Str)
deriving DecidableEq

/-- The state of a freshly started server. -/
def ServerState.fresh : ServerState := { gen := Gen.fresh, files := [] }

/-- `saveToFile` (index.js lines 49-62): append the `.drawio` extension
when missing, join with the output directory, write.  `fsOk` is the file
system oracle; on failure the function throws
`Failed to save file: <message>`. -/
def saveToFile (fsOk : Bool) (fsMsg outputDir filename content : Str)
    (files : List (Str × Str)) : Except Str (Str × List (Str × Str)) :=
  let fn := if ".drawio".toList.isSuffixOf filename then filename
            else filename ++ ".drawio".toList
  let fullPath := outputDir ++ "/".toList ++ fn
  if fsOk then .ok (fullPath, files ++ [(fullPath, content)])
  else .error ("Failed to save file: ".toList ++ fsMsg)

/-- The `switch (type)` dispatch inside the `try` block (lines 219-237):
produces the XML text and the advanced generator state, or the message of
the error the branch throws (`custom`: the missing method; `default`:
unknown diagram type). -/
def dispatch (data : DiagramData) (ts : Str) (g : Gen) :
    Except Str (Str × Gen) :=
  match data with
  | .flowchart steps conns => .ok (createFlowchart steps conns ts g)
  | .sequence ps itns => .ok (createSequenceDiagram ps itns ts g)
  | .network nodes conns => .ok (createNetworkDiagram nodes conns ts g)
  | .erd ents rels => .ok (createERD ents rels ts g)
  | .custom _ _ =>
    .error "this.generator.createCustomDiagram is not a function".toList
  | .unknown t => .error ("Unknown diagram type: ".toList ++ t)

/-- The success text of the handler (line 245). -/
def successText (typeName fullPath : Str) : Str :=
  "Successfully created ".toList ++ typeName ++ " diagram at ".toList ++ fullPath
  ++ "\n\nYou can open this file directly in Draw.io.".toList

/-- The catch-clause text (line 254). -/
def errorText (msg : Str) : Str := "Error creating diagram: ".toList ++ msg

/-- The `create_diagram` handler (index.js lines 206-260).  The
placeholder `saveToFile(filename, '')` on line 212 runs before the
`try` block: its write happens unconditionally and a failure there
propagates out of the handler (the `.error` of the outer `Except`).
Inside the `try`, dispatch errors and save errors become `isError`
results. -/
def handleRequest (fsOk : Bool) (fsMsg outputDir ts : Str) (req : Request)
    (st : ServerState) : Except Str (ToolResult × ServerState) := do
  let ph ← saveToFile fsOk fsMsg outputDir req.filename [] st.files
  let fullPath := ph.1
  match dispatch req.data ts st.gen with
  | .error e =>
    .ok ({ text := errorText e, isError := true }, { gen := st.gen, files := ph.2 })
  | .ok (xml, g') =>
    match saveToFile fsOk fsMsg outputDir req.filename xml ph.2 with
    | .error e =>
      .ok ({ text := errorText e, isError := true }, { gen := g', files := ph.2 })
    | .ok (_, files') =>
      .ok ({ text := successText req.data.typeName fullPath, isError := false },
           { gen := g', files := files' })

deriving instance DecidableEq for Except

/-- Whether an `Except` computation returned normally. -/
def exceptOk {α β : Type} : Except α β → Bool
  | .ok _ => true
  | .error _ => false

/-!
## Concrete inputs used by the claims
-/

/-- A step with only id and label (the other fields absent). -/
def mkStep (i l : String) : Step :=
  { id := i.toList, label := l.toList, type := [], connectorLabel := [],
    width := none, height := none }

/-- A connection literal. -/
def mkConn (f t l : String) : Conn :=
  { from_ := f.toList, to_ := t.toList, label := l.toList }

/-- Steps A, B, B2, C, D of the branch-rejoin scenario. -/
def rejoinSteps : List Step :=
  [mkStep "A" "A", mkStep "B" "B", mkStep "B2" "B2", mkStep "C" "C", mkStep "D" "D"]

/-- Connections A→B, B→C "Yes", B→B2, B2→C "No", C→D. -/
def rejoinConns : List Conn :=
  [mkConn "A" "B" "", mkConn "B" "C" "Yes", mkConn "B" "B2" "",
   mkConn "B2" "C" "No", mkConn "C" "D" ""]

/-- Steps A, B of the 2-cycle scenario. -/
def cycleSteps : List Step := [mkStep "A" "A", mkStep "B" "B"]

/-- Connections A→B and B→A. -/
def cycleConns : List Conn := [mkConn "A" "B" "", mkConn "B" "A" ""]

/-- Steps A, B, C where B and C are 200 wide. -/
def wideSteps : List Step :=
  [mkStep "A" "A",
   { mkStep "B" "B" with width := some 200 },
   { mkStep "C" "C" with width := some 200 }]

/-- Connections A→B and A→C, putting B and C on one level. -/
def wideConns : List Conn := [mkConn "A" "B" "", mkConn "A" "C" ""]

/-- A custom-diagram request with one rectangle shape. -/
def customReq : Request :=
  { filename := "out".toList,
    data := .custom
      [{ id := "a".toList, label := "A".toList, type := "rectangle".toList,
         x := some 100, y := some 100, width := none, height := none }] [] }

/-- A flowchart request with a single step. -/
def flowReq : Request :=
  { filename := "f".toList, data := .flowchart [mkStep "s" "Start"] [] }

/-- A request whose diagram type is none of the five known variants. -/
def ganttReq : Request :=
  { filename := "plan".toList, data := .unknown "gantt".toList }

/-- Two successive requests against the same running server (succeeding
file system, fixed timestamp), starting from a fresh server. -/
def handleTwice (req : Request) : Except Str (ToolResult × ServerState) :=
  match handleRequest true [] "/out".toList "TS".toList req ServerState.fresh with
  | .ok (_, st) => handleRequest true [] "/out".toList "TS".toList req st
  | .error e => .error e

/-- The file list left by `handleTwice`. -/
def filesAfterTwice (req : Request) : List (Str × Str) :=
  match handleTwice req with
  | .ok (_, st) => st.files
  | .error _ => []

/-!
## Claims C1-C5 and the C6 counterexample
-/

/-- C1: the claim asserts id-counter scoping per document build, no state
across builds, and that two identical custom builds produce two documents
identical except for the timestamp with ids starting at 2.  On the code:
(a) `this.generator.createCustomDiagram` does not exist, so every custom
request yields an error result and only the empty placeholder file — no
custom document at all (here: both calls on a running server); (b) the
server shares one generator across requests, so the counter persists:
two identical flowchart builds with the *same* timestamp write different
documents (the second build's ids continue from the first). -/
theorem c1_custom_build_broken_and_state_persists :
    handleRequest true [] "/out".toList "TS".toList customReq ServerState.fresh
      = .ok ({ text := errorText "this.generator.createCustomDiagram is not a function".toList,
               isError := true },
             { gen := Gen.fresh, files := [("/out/out.drawio".toList, [])] })
    ∧ handleTwice customReq
      = .ok ({ text := errorText "this.generator.createCustomDiagram is not a function".toList,
               isError := true },
             { gen := Gen.fresh,
               files := [("/out/out.drawio".toList, []), ("/out/out.drawio".toList, [])] })
    ∧ (filesAfterTwice flowReq).length = 4
    ∧ (filesAfterTwice flowReq).get? 1 ≠ (filesAfterTwice flowReq).get? 3 := by
  refine ⟨by decide, by decide, by decide, by decide⟩

/-- C2: a request with unknown diagram type "gantt" is answered with a
request-level error result — but the placeholder write on index.js line
212 has already created the (empty) output file, contradicting the
claim's "no file is written". -/
theorem c2_unknown_type_reports_error_but_writes_placeholder :
    handleRequest true [] "/out".toList "TS".toList ganttReq ServerState.fresh
      = .ok ({ text := errorText ("Unknown diagram type: gantt".toList), isError := true },
             { gen := Gen.fresh, files := [("/out/plan.drawio".toList, [])] }) := by
  decide

/-- C3: when the file system fails, every `create_diagram` request makes
the handler throw (the placeholder `saveToFile` on line 212 sits outside
the `try`), escaping the request boundary instead of returning a
structured error result; with a working file system the handler does
always return a result object. -/
theorem c3_fs_failure_escapes_handler :
    (∀ (fsMsg outputDir ts : Str) (req : Request) (st : ServerState),
        handleRequest false fsMsg outputDir ts req st
          = .error ("Failed to save file: ".toList ++ fsMsg))
    ∧ (∀ (fsMsg outputDir ts : Str) (req : Request) (st : ServerState),
        exceptOk (handleRequest true fsMsg outputDir ts req st) = true) := by
  constructor
  · intro fsMsg outputDir ts req st
    rfl
  · intro fsMsg outputDir ts req st
    cases h : dispatch req.data ts st.gen with
    | error e =>
      unfold handleRequest saveToFile
      rw [h]
      rfl
    | ok p =>
      unfold handleRequest saveToFile
      rw [h]
      rfl

/-- C4 counterexample: on steps A, B, B2, C, D with connections A→B,
B→C "Yes", B→B2, B2→C "No", C→D, the BFS assigns B level 1, B2 level 2
and C level 2, so C's level is not max(level B, level B2) + 1 = 3 as the
claim states. -/
theorem c4_rejoin_level_not_max_plus_one :
    alookup "C".toList (levelAssignments rejoinSteps rejoinConns) = some 2
    ∧ alookup "B".toList (levelAssignments rejoinSteps rejoinConns) = some 1
    ∧ alookup "B2".toList (levelAssignments rejoinSteps rejoinConns) = some 2
    ∧ (2 : Nat) ≠ max 1 2 + 1 := by
  refine ⟨by decide, by decide, by decide, by decide⟩

/-- C4 amended: under first-visit-wins leveling C is discovered from B,
so its level is level(B) + 1 = 2 (B2 also lands on level 2, making
max(level B, level B2) + 1 = 3 unequal to C's level), and the rejoining
branch B2→C neither duplicates C nor revises its level: the assignment
list is exactly A↦0, B↦1, C↦2, B2↦2, D↦3 with C assigned once. -/
theorem c4_rejoin_first_visit_levels :
    levelAssignments rejoinSteps rejoinConns
      = [("A".toList, 0), ("B".toList, 1), ("C".toList, 2), ("B2".toList, 2), ("D".toList, 3)]
    ∧ ((levelAssignments rejoinSteps rejoinConns).map Prod.fst).count "C".toList = 1
    ∧ ((flowRows rejoinSteps rejoinConns).flatMap Prod.snd).count "C".toList = 1 := by
  refine ⟨by decide, by decide, by decide⟩

/-- C5: on the 2-cycle A→B→A (no zero-in-degree node) the computation
produces a complete layout — the first declared step A is the fallback
root at level 0 and B is at level 1, and the (total) traversal terminates
with exactly these two placements. -/
theorem c5_two_cycle_fallback_root :
    levelAssignments cycleSteps cycleConns = [("A".toList, 0), ("B".toList, 1)]
    ∧ flowPlacements cycleSteps cycleConns
      = [{ node := "A".toList, level := 0, x := 400, y := 50, w := 120, h := 60 },
         { node := "B".toList, level := 1, x := 400, y := 170, w := 120, h := 60 }] := by
  refine ⟨by decide, by decide⟩

/-- C6 counterexample: with caller-specified widths the "siblings never
overlap" consequence of the claim fails: for steps A, B, C (B and C 200
wide) and connections A→B, A→C, the code places B and C on the same
level at x = 320 and x = 480 with the same y, and their rectangles
intersect (480 < 320 + 200). -/
theorem c6_wide_siblings_overlap :
    (flowPlacements wideSteps wideConns).get? 1
      = some { node := "B".toList, level := 1, x := 320, y := 170, w := 200, h := 60 }
    ∧ (flowPlacements wideSteps wideConns).get? 2
      = some { node := "C".toList, level := 1, x := 480, y := 170, w := 200, h := 60 }
    ∧ (480 : Int) < 320 + 200 ∧ (320 : Int) < 480 + 200 := by
  refine ⟨by decide, by decide, by decide, by decide⟩

/-!
## C9: XML escaping, appearance in output, round-trip
-/

/-- `replaceChar` distributes over concatenation. -/
theorem replaceChar_append (c : Char) (r : Str) (a b : Str) :
    replaceChar c r (a ++ b) = replaceChar c r a ++ replaceChar c r b := by
  induction a with
  | nil => rfl
  | cons x xs ih => simp [replaceChar, ih]

/-- The five sequential replacements of the source equal the spec's
per-character entity substitution: replacing `&` first means no later
replacement touches the inserted entities. -/
theorem escapeXml_eq_escapeSpec (l : Str) : escapeXml l = escapeSpec l := by
  induction l with
  | nil => rfl
  | cons c l ih =>
    by_cases h1 : c = '&'
    · subst h1; simp [escapeXml, escapeSpec, escChar, replaceChar, replaceChar_append] at ih ⊢; simp [ih]
    · by_cases h2 : c = '<'
      · subst h2; simp [escapeXml, escapeSpec, escChar, replaceChar, replaceChar_append] at ih ⊢; simp [ih]
      · by_cases h3 : c = '>'
        · subst h3; simp [escapeXml, escapeSpec, escChar, replaceChar, replaceChar_append] at ih ⊢; simp [ih]
        · by_cases h4 : c = '"'
          · subst h4; simp [escapeXml, escapeSpec, escChar, replaceChar, replaceChar_append] at ih ⊢; simp [ih]
          · by_cases h5 : c = '\''
            · subst h5; simp [escapeXml, escapeSpec, escChar, replaceChar, replaceChar_append] at ih ⊢; simp [ih]
            · simp [escapeXml, escapeSpec, escChar, replaceChar, replaceChar_append, h1, h2, h3, h4, h5] at ih ⊢
              simp [ih]

/-- Decoding inverts the per-character escaping. -/
theorem unescape_escapeSpec (l : Str) : unescapeXml (escapeSpec l) = l := by
  induction l with
  | nil => simp [escapeSpec, unescapeXml]
  | cons c l ih =>
    have hs : escapeSpec (c :: l) = escChar c ++ escapeSpec l := rfl
    rw [hs]
    by_cases h1 : c = '&'
    · subst h1; simp [escChar, unescapeXml, List.take, List.drop, ih]
    · by_cases h2 : c = '<'
      · subst h2; simp [escChar, unescapeXml, List.take, List.drop, ih]
      · by_cases h3 : c = '>'
        · subst h3; simp [escChar, unescapeXml, List.take, List.drop, ih]
        · by_cases h4 : c = '"'
          · subst h4; simp [escChar, unescapeXml, List.take, List.drop, ih]
          · by_cases h5 : c = '\''
            · subst h5; simp [escChar, unescapeXml, List.take, List.drop, ih]
            · simp [escChar, h1, h2, h3, h4, h5, unescapeXml, ih]

/-- The escaped value is a contiguous substring of the rendered cell. -/
theorem escaped_value_infix (c : Cell) : escapeXml c.value <:+: cellXml c := by
  by_cases h : c.value = []
  · rw [h]
    exact List.nil_infix
  · refine ⟨"      <mxCell id=\"".toList ++ c.id ++ "\" ".toList ++ "value=\"".toList,
      "\" ".toList
      ++ (if c.style = [] then [] else "style=\"".toList ++ c.style ++ "\" ".toList)
      ++ (if c.vertex then "vertex=\"1\" ".toList else [])
      ++ (if c.edge then "edge=\"1\" ".toList else [])
      ++ "parent=\"".toList ++ c.parent ++ "\"".toList
      ++ (match c.source with
          | none => []
          | some s => " source=\"".toList ++ s ++ "\"".toList)
      ++ (match c.target with
          | none => []
          | some t => " target=\"".toList ++ t ++ "\"".toList)
      ++ ">\n".toList
      ++ (if c.geometry = [] then []
          else "        <mxGeometry ".toList ++ c.geometry ++ " />\n".toList)
      ++ "      </mxCell>".toList, ?_⟩
    simp [cellXml, h, List.append_assoc]

/-- `createCell` stores its `value` argument unchanged. -/
theorem createCell_value (g : Gen) (value style geometry : Str) (id : Option Str)
    (parent : Str) (vertex edge : Bool) (source target : Option Str) :
    (createCell g value style geometry id parent vertex edge source target).1.value
      = value := by
  cases id <;> rfl

/-- C9: escaping replaces each occurrence of the five reserved
characters by its entity (it equals the per-character substitution
`escapeSpec`), the escaped form of a cell's label is a contiguous
substring of the serialized element, and unescaping the escaped form of
any label returns exactly the original string. -/
theorem c9_escape_appears_and_roundtrips :
    (∀ l : Str, escapeXml l = escapeSpec l)
    ∧ (∀ (g : Gen) (value style geometry : Str) (id : Option Str)
         (parent : Str) (vertex edge : Bool) (source target : Option Str),
         escapeXml value <:+:
           cellXml (createCell g value style geometry id parent vertex edge source target).1)
    ∧ (∀ l : Str, unescapeXml (escapeXml l) = l) := by
  refine ⟨escapeXml_eq_escapeSpec, ?_, ?_⟩
  · intro g value style geometry id parent vertex edge source target
    have h := escaped_value_infix
      (createCell g value style geometry id parent vertex edge source target).1
    rwa [createCell_value] at h
  · intro l
    rw [escapeXml_eq_escapeSpec]
    exact unescape_escapeSpec l

/-!
## C6 and C7: layout formulas and determinism
-/

/-- Everything of a cell except its identifier and endpoint references:
the layout-relevant content. -/
def visualOf (c : Cell) : Str × Str × Str × Str × Bool × Bool :=
  (c.value, c.style, c.geometry, c.parent, c.vertex, c.edge)

/-- The visual content of the shape built at a placement. -/
def placementVisual (m : List (Str × Step)) (p : Placement) :
    Str × Str × Str × Str × Bool × Bool :=
  let step := (alookup p.node m).getD defaultStep
  (step.label,
   shapeStyle (orStr step.type "process".toList)
     ++ "fillColor=".toList ++ defFill ++ ";strokeColor=".toList ++ defStroke ++ ";".toList,
   geomStr p.x p.y p.w p.h, "1".toList, true, false)

/-- `createShape` output, identifier stripped. -/
theorem createShape_visual (g : Gen) (label type : Str) (x y w h : Int) (fill stroke : Str) :
    visualOf (createShape g label type x y w h fill stroke).1
      = (label,
         shapeStyle type ++ "fillColor=".toList ++ fill ++ ";strokeColor=".toList ++ stroke ++ ";".toList,
         geomStr x y w h, "1".toList, true, false) := rfl

/-- `createConnector` output, identifier stripped. -/
theorem createConnector_visual (g : Gen) (s t label style : Str) :
    visualOf (createConnector g s t label style).1
      = (label, style, "relative=\"1\" as=\"geometry\"".toList, "1".toList, false, true) := rfl

/-- The shape phase of one row: visuals match the placements and the
recorded step-id keys are the row's nodes, whatever the generator
state. -/
theorem shapeRow_spec (m : List (Str × Step)) (lvl len : Nat) :
    ∀ (nodes : List (Nat × Str)) (g : Gen),
    ((shapeRow m lvl len nodes g).1.map visualOf
       = (placeRow m lvl len nodes).map (placementVisual m))
    ∧ ((shapeRow m lvl len nodes g).2.1.map Prod.fst = nodes.map Prod.snd) := by
  intro nodes
  induction nodes with
  | nil => intro g; exact ⟨rfl, rfl⟩
  | cons p rest ih =>
    intro g
    refine ⟨?_, ?_⟩
    · simp only [shapeRow, placeRow, List.map_cons]
      refine congrArg₂ _ ?_ ?_
      · simp [createShape_visual, placementVisual]
      · have := (ih ((createShape g ((alookup p.2 m).getD defaultStep).label
          (orStr ((alookup p.2 m).getD defaultStep).type "process".toList)
          (400 - ((len : Int) - 1) * 160 / 2 + (p.1 : Int) * 160)
          (50 + (lvl : Int) * 120)
          (orNum ((alookup p.2 m).getD defaultStep).width 120)
          (orNum ((alookup p.2 m).getD defaultStep).height 60) defFill defStroke).2)).1
        simpa [placeRow] using this
    · simp only [shapeRow, List.map_cons]
      refine congrArg₂ _ rfl ?_
      exact (ih _).2

/-- `shapeRow_spec` over all rows. -/
theorem shapeRows_spec (m : List (Str × Step)) :
    ∀ (rows : List (Nat × List Str)) (g : Gen),
    ((shapeRows m rows g).1.map visualOf
       = (rows.flatMap (fun r => placeRow m r.1 r.2.length r.2.enum)).map (placementVisual m))
    ∧ ((shapeRows m rows g).2.1.map Prod.fst = rows.flatMap Prod.snd) := by
  intro rows
  induction rows with
  | nil => intro g; exact ⟨rfl, rfl⟩
  | cons r rest ih =>
    intro g
    constructor
    · simp only [shapeRows, List.flatMap_cons, List.map_append]
      rw [(shapeRow_spec m r.1 r.2.length r.2.enum g).1, (ih _).1]
    · simp only [shapeRows, List.flatMap_cons, List.map_append]
      rw [(shapeRow_spec m r.1 r.2.length r.2.enum g).2, (ih _).2]
      simp [List.enum_map_snd]

/-- A lookup succeeds exactly on the keys. -/
theorem alookup_isSome_iff {α : Type} (k : Str) (m : List (Str × α)) :
    (alookup k m).isSome = true ↔ k ∈ m.map Prod.fst := by
  induction m with
  | nil => simp [alookup]
  | cons p rest ih =>
    simp only [alookup, List.map_cons, List.mem_cons]
    by_cases h : p.1 = k
    · subst h
      rw [if_pos rfl]
      exact ⟨fun _ => Or.inl rfl, fun _ => rfl⟩
    · have hne : ¬ k = p.1 := fun e => h e.symm
      rw [if_neg h, ih]
      constructor
      · intro hm; exact Or.inr hm
      · intro hm
        cases hm with
        | inl e => exact absurd e hne
        | inr hm => exact hm

/-- Lookup success only depends on the key list. -/
theorem alookup_isSome_eq {α β : Type} (k : Str) (m1 : List (Str × α))
    (m2 : List (Str × β)) (hk : m1.map Prod.fst = m2.map Prod.fst) :
    (alookup k m1).isSome = (alookup k m2).isSome := by
  by_cases h : k ∈ m1.map Prod.fst
  · rw [(alookup_isSome_iff k m1).mpr h, (alookup_isSome_iff k m2).mpr (hk ▸ h)]
  · have h2 : k ∉ m2.map Prod.fst := hk ▸ h
    have e1 : (alookup k m1).isSome = false :=
      Bool.not_eq_true _ |>.mp (fun hc => h ((alookup_isSome_iff k m1).mp hc))
    have e2 : (alookup k m2).isSome = false :=
      Bool.not_eq_true _ |>.mp (fun hc => h2 ((alookup_isSome_iff k m2).mp hc))
    rw [e1, e2]

/-- Explicit-connector visuals depend only on which endpoints resolve,
not on the generator state or the generated id values. -/
theorem connLoop_visual (s1 s2 : List (Str × Str)) (hk : s1.map Prod.fst = s2.map Prod.fst) :
    ∀ (conns : List Conn) (g1 g2 : Gen),
    (connLoop s1 conns g1).1.map visualOf = (connLoop s2 conns g2).1.map visualOf := by
  intro conns
  induction conns with
  | nil => intro g1 g2; rfl
  | cons c rest ih =>
    intro g1 g2
    have hf : (alookup c.from_ s1).isSome = (alookup c.from_ s2).isSome :=
      alookup_isSome_eq _ _ _ hk
    have ht : (alookup c.to_ s1).isSome = (alookup c.to_ s2).isSome :=
      alookup_isSome_eq _ _ _ hk
    cases hf1 : alookup c.from_ s1 with
    | none =>
      cases hf2 : alookup c.from_ s2 with
      | none =>
        simp only [connLoop, hf1, hf2]
        cases ht1 : alookup c.to_ s1 <;> cases ht2 : alookup c.to_ s2 <;> exact ih g1 g2
      | some v => rw [hf1, hf2] at hf; simp at hf
    | some v1 =>
      cases hf2 : alookup c.from_ s2 with
      | none => rw [hf1, hf2] at hf; simp at hf
      | some v2 =>
        cases ht1 : alookup c.to_ s1 with
        | none =>
          cases ht2 : alookup c.to_ s2 with
          | none => simp only [connLoop, hf1, hf2, ht1, ht2]; exact ih g1 g2
          | some w2 => rw [ht1, ht2] at ht; simp at ht
        | some w1 =>
          cases ht2 : alookup c.to_ s2 with
          | none => rw [ht1, ht2] at ht; simp at ht
          | some w2 =>
            simp only [connLoop, hf1, hf2, ht1, ht2, List.map_cons]
            refine congrArg₂ _ ?_ (ih _ _)
            simp [createConnector_visual]

/-- Sequential-chain connector visuals are independent of the id map
and the generator state. -/
theorem chainLoop_visual (m : List (Str × Step)) (s1 s2 : List (Str × Str)) :
    ∀ (ids : List Str) (g1 g2 : Gen),
    (chainLoop m s1 ids g1).1.map visualOf = (chainLoop m s2 ids g2).1.map visualOf := by
  intro ids
  induction ids with
  | nil => intro g1 g2; rfl
  | cons a rest ih =>
    cases rest with
    | nil => intro g1 g2; rfl
    | cons b rest2 =>
      intro g1 g2
      simp only [chainLoop, List.map_cons]
      refine congrArg₂ _ ?_ (ih _ _)
      simp [createConnector_visual]

/-- The geometry attribute of each shape in a row is the rendering of
its placement. -/
theorem shapeRow_geoms (m : List (Str × Step)) (lvl len : Nat) :
    ∀ (nodes : List (Nat × Str)) (g : Gen),
    (shapeRow m lvl len nodes g).1.map (fun c => c.geometry)
      = (placeRow m lvl len nodes).map (fun p => geomStr p.x p.y p.w p.h) := by
  intro nodes
  induction nodes with
  | nil => intro g; rfl
  | cons p rest ih =>
    intro g
    simp only [shapeRow, placeRow, List.map_cons]
    refine congrArg₂ _ rfl ?_
    simpa [placeRow] using ih _

/-- `shapeRow_geoms` over all rows. -/
theorem shapeRows_geoms (m : List (Str × Step)) :
    ∀ (rows : List (Nat × List Str)) (g : Gen),
    (shapeRows m rows g).1.map (fun c => c.geometry)
      = (rows.flatMap (fun r => placeRow m r.1 r.2.length r.2.enum)).map
          (fun p => geomStr p.x p.y p.w p.h) := by
  intro rows
  induction rows with
  | nil => intro g; rfl
  | cons r rest ih =>
    intro g
    simp only [shapeRows, List.flatMap_cons, List.map_append]
    rw [shapeRow_geoms, ih]

/-- Row shapes are vertex cells. -/
theorem shapeRow_flags (m : List (Str × Step)) (lvl len : Nat) :
    ∀ (nodes : List (Nat × Str)) (g : Gen),
    ∀ c ∈ (shapeRow m lvl len nodes g).1, c.vertex = true ∧ c.edge = false := by
  intro nodes
  induction nodes with
  | nil => intro g c hc; simp [shapeRow] at hc
  | cons p rest ih =>
    intro g c hc
    simp only [shapeRow, List.mem_cons] at hc
    cases hc with
    | inl h => subst h; exact ⟨rfl, rfl⟩
    | inr h => exact ih _ c h

/-- All shapes are vertex cells. -/
theorem shapeRows_flags (m : List (Str × Step)) :
    ∀ (rows : List (Nat × List Str)) (g : Gen),
    ∀ c ∈ (shapeRows m rows g).1, c.vertex = true ∧ c.edge = false := by
  intro rows
  induction rows with
  | nil => intro g c hc; simp [shapeRows] at hc
  | cons r rest ih =>
    intro g c hc
    simp only [shapeRows, List.mem_append] at hc
    cases hc with
    | inl h => exact shapeRow_flags m r.1 r.2.length r.2.enum g c h
    | inr h => exact ih _ c h

/-- Explicit connectors are edge cells. -/
theorem connLoop_flags (s : List (Str × Str)) :
    ∀ (conns : List Conn) (g : Gen),
    ∀ c ∈ (connLoop s conns g).1, c.edge = true ∧ c.vertex = false := by
  intro conns
  induction conns with
  | nil => intro g c hc; simp [connLoop] at hc
  | cons cn rest ih =>
    intro g c hc
    cases hf : alookup cn.from_ s with
    | none =>
      rw [connLoop, hf] at hc
      cases ht : alookup cn.to_ s <;> rw [ht] at hc <;> exact ih _ c hc
    | some v =>
      rw [connLoop, hf] at hc
      cases ht : alookup cn.to_ s with
      | none => rw [ht] at hc; exact ih _ c hc
      | some w =>
        rw [ht] at hc
        simp only [List.mem_cons] at hc
        cases hc with
        | inl h => subst h; exact ⟨rfl, rfl⟩
        | inr h => exact ih _ c h

/-- Chain connectors are edge cells. -/
theorem chainLoop_flags (m : List (Str × Step)) (s : List (Str × Str)) :
    ∀ (ids : List Str) (g : Gen),
    ∀ c ∈ (chainLoop m s ids g).1, c.edge = true ∧ c.vertex = false := by
  intro ids
  induction ids with
  | nil => intro g c hc; simp [chainLoop] at hc
  | cons a rest ih =>
    cases rest with
    | nil => intro g c hc; simp [chainLoop] at hc
    | cons b rest2 =>
      intro g c hc
      simp only [chainLoop, List.mem_cons] at hc
      cases hc with
      | inl h => subst h; exact ⟨rfl, rfl⟩
      | inr h => exact ih _ c h

/-- The coordinate formulas of one placement, read off the row. -/
theorem placeRow_get? (m : List (Str × Step)) (lvl : Nat) (nodes : List Str)
    (i : Nat) (pi : Placement)
    (hp : (placeRow m lvl nodes.length nodes.enum).get? i = some pi) :
    pi.level = lvl
    ∧ pi.x = 400 - ((nodes.length : Int) - 1) * 160 / 2 + (i : Int) * 160
    ∧ pi.y = 50 + (lvl : Int) * 120 := by
  simp only [placeRow, List.get?_eq_getElem?, List.getElem?_map, List.getElem?_enum] at hp
  cases hq : nodes[i]? with
  | none =>
    rw [hq] at hp
    exact absurd hp (by simp)
  | some a =>
    rw [hq] at hp
    cases hp
    exact ⟨rfl, rfl, rfl⟩

/-- The vertex cells of a flowchart build are exactly the shapes, and
their geometries render the placements. -/
theorem flowVertexGeoms (steps : List Step) (conns : List Conn) (g : Gen) :
    ((createFlowchartCells steps conns g).1.filter (fun c => c.vertex)).map (fun c => c.geometry)
      = (flowPlacements steps conns).map (fun p => geomStr p.x p.y p.w p.h) := by
  unfold createFlowchartCells
  rw [List.filter_append]
  have hshapes : ((shapeRows (buildStepMap steps) (flowRows steps conns) g).1.filter
      (fun c => c.vertex)) = (shapeRows (buildStepMap steps) (flowRows steps conns) g).1 :=
    List.filter_eq_self.mpr (fun c hc => by
      simpa using (shapeRows_flags _ _ _ c hc).1)
  have hconns : ((connectorPhase (buildStepMap steps) (uniqueIds steps)
        (shapeRows (buildStepMap steps) (flowRows steps conns) g).2.1 conns
        (shapeRows (buildStepMap steps) (flowRows steps conns) g).2.2).1.filter
      (fun c => c.vertex)) = [] := by
    apply List.filter_eq_nil_iff.mpr
    intro c hc
    unfold connectorPhase at hc
    by_cases h : conns ≠ []
    · rw [if_pos h] at hc
      simp [(connLoop_flags _ _ _ c hc).2]
    · rw [if_neg h] at hc
      simp [(chainLoop_flags _ _ _ _ c hc).2]
  rw [hshapes, hconns, List.append_nil]
  exact shapeRows_geoms _ _ _

/-- C7: the flowchart layout is deterministic: builds from identical
steps and connections agree on every cell's value, style, geometry
(hence level, x, y), parent and kind for *any* two generator states -
in particular for repeated builds on the same generator instance, whose
only drift is the id counter. -/
theorem c7_layout_deterministic (steps : List Step) (conns : List Conn) (g g' : Gen) :
    ((createFlowchartCells steps conns g).1).map visualOf
      = ((createFlowchartCells steps conns g').1).map visualOf := by
  unfold createFlowchartCells
  simp only [List.map_append]
  have h1 := (shapeRows_spec (buildStepMap steps) (flowRows steps conns) g).1
  have h1' := (shapeRows_spec (buildStepMap steps) (flowRows steps conns) g').1
  have hk := ((shapeRows_spec (buildStepMap steps) (flowRows steps conns) g).2).trans
    ((shapeRows_spec (buildStepMap steps) (flowRows steps conns) g').2).symm
  refine congrArg₂ _ (h1.trans h1'.symm) ?_
  unfold connectorPhase
  by_cases hc : conns ≠ []
  · rw [if_pos hc, if_pos hc]
    exact connLoop_visual _ _ hk conns _ _
  · rw [if_neg hc, if_neg hc]
    exact chainLoop_visual _ _ _ (uniqueIds steps) _ _

/-- C6 (amended): every vertex cell's geometry is the rendering of its
placement; each placement at row index `i` of a level with `count`
nodes sits at `x = 400 - (count - 1) * 160 / 2 + i * 160` and
`y = 50 + level * 120`; two distinct siblings of one level never
overlap horizontally *provided* each of their widths is at most the
160-pixel spacing (the claim's unconditional no-overlap fails for wider
shapes, see the counterexample); and each row is centered on the
x = 400 axis: first x + last x = 800. -/
theorem c6_layout_formulas (steps : List Step) (conns : List Conn) (g : Gen) :
    (((createFlowchartCells steps conns g).1.filter (fun c => c.vertex)).map (fun c => c.geometry)
       = (flowPlacements steps conns).map (fun p => geomStr p.x p.y p.w p.h))
    ∧ (∀ r ∈ flowRows steps conns, ∀ (i : Nat) (pi : Placement),
         (placeRow (buildStepMap steps) r.1 r.2.length r.2.enum).get? i = some pi →
         pi.level = r.1
         ∧ pi.x = 400 - ((r.2.length : Int) - 1) * 160 / 2 + (i : Int) * 160
         ∧ pi.y = 50 + (r.1 : Int) * 120)
    ∧ (∀ r ∈ flowRows steps conns, ∀ (i j : Nat) (pi pj : Placement),
         (placeRow (buildStepMap steps) r.1 r.2.length r.2.enum).get? i = some pi →
         (placeRow (buildStepMap steps) r.1 r.2.length r.2.enum).get? j = some pj →
         i ≠ j → pi.w ≤ 160 → pj.w ≤ 160 →
         pi.x + pi.w ≤ pj.x ∨ pj.x + pj.w ≤ pi.x)
    ∧ (∀ r ∈ flowRows steps conns, ∀ (p0 pl : Placement),
         (placeRow (buildStepMap steps) r.1 r.2.length r.2.enum).get? 0 = some p0 →
         (placeRow (buildStepMap steps) r.1 r.2.length r.2.enum).get? (r.2.length - 1) = some pl →
         p0.x + pl.x = 800) := by
  refine ⟨flowVertexGeoms steps conns g, ?_, ?_, ?_⟩
  · intro r _ i pi hp
    exact placeRow_get? _ _ _ _ _ hp
  · intro r _ i j pi pj hpi hpj hij hwi hwj
    obtain ⟨-, hxi, -⟩ := placeRow_get? _ _ _ _ _ hpi
    obtain ⟨-, hxj, -⟩ := placeRow_get? _ _ _ _ _ hpj
    rcases Nat.lt_or_ge i j with h | h
    · left; omega
    · have : j < i := Nat.lt_of_le_of_ne h (fun e => hij e.symm)
      right; omega
  · intro r hr p0 pl hp0 hpl
    obtain ⟨-, hx0, -⟩ := placeRow_get? _ _ _ _ _ hp0
    obtain ⟨-, hxl, -⟩ := placeRow_get? _ _ _ _ _ hpl
    have hlen : r.2.length ≠ 0 := by
      intro h0
      have he : r.2 = [] := List.length_eq_zero.mp h0
      rw [he] at hp0
      simp [placeRow] at hp0
    omega

/-- Steps A, B, C at default width. -/
def sibSteps : List Step := [mkStep "A" "A", mkStep "B" "B", mkStep "C" "C"]

/-- Connections A→B, A→C: B and C become siblings on level 1. -/
def sibConns : List Conn := [mkConn "A" "B" "", mkConn "A" "C" ""]

/-- Witness for the amended C6 at a concrete input: the level-1 row of
the A→B, A→C flowchart holds B and C at x = 320 and x = 480 with the
default width 120, all hypotheses hold, and the theorem yields their
non-overlap. -/
theorem c6_layout_formulas_witness :
    ((1, ["B".toList, "C".toList]) ∈ flowRows sibSteps sibConns
      ∧ (placeRow (buildStepMap sibSteps) 1 2 (["B".toList, "C".toList].enum)).get? 0
          = some { node := "B".toList, level := 1, x := 320, y := 170, w := 120, h := 60 }
      ∧ (placeRow (buildStepMap sibSteps) 1 2 (["B".toList, "C".toList].enum)).get? 1
          = some { node := "C".toList, level := 1, x := 480, y := 170, w := 120, h := 60 }
      ∧ (0 : Nat) ≠ 1
      ∧ ({ node := "B".toList, level := 1, x := 320, y := 170, w := 120, h := 60 } : Placement).w ≤ 160
      ∧ ({ node := "C".toList, level := 1, x := 480, y := 170, w := 120, h := 60 } : Placement).w ≤ 160)
    ∧ (({ node := "B".toList, level := 1, x := 320, y := 170, w := 120, h := 60 } : Placement).x
         + ({ node := "B".toList, level := 1, x := 320, y := 170, w := 120, h := 60 } : Placement).w
         ≤ ({ node := "C".toList, level := 1, x := 480, y := 170, w := 120, h := 60 } : Placement).x
       ∨ ({ node := "C".toList, level := 1, x := 480, y := 170, w := 120, h := 60 } : Placement).x
         + ({ node := "C".toList, level := 1, x := 480, y := 170, w := 120, h := 60 } : Placement).w
         ≤ ({ node := "B".toList, level := 1, x := 320, y := 170, w := 120, h := 60 } : Placement).x) :=
  ⟨⟨by decide, by decide, by decide, by decide, by decide, by decide⟩,
   (c6_layout_formulas sibSteps sibConns Gen.fresh).2.2.1
     (1, ["B".toList, "C".toList]) (by decide) 0 1
     { node := "B".toList, level := 1, x := 320, y := 170, w := 120, h := 60 }
     { node := "C".toList, level := 1, x := 480, y := 170, w := 120, h := 60 }
     (by decide) (by decide) (by decide) (by decide) (by decide)⟩

/-!
## C8: unresolved connections and element counts
-/

/-- First projections of a constant-second zip. -/
theorem mapfst_pair (ns : List Str) (k : Nat) :
    (ns.map (fun x => (x, k))).map Prod.fst = ns := by
  induction ns with
  | nil => rfl
  | cons a r ih => simp [ih]

/-- Filtering by a stronger predicate yields a shorter list. -/
theorem filter_length_mono {α : Type} (l : List α) (p q : α → Bool)
    (h : ∀ a, p a = true → q a = true) :
    (l.filter p).length ≤ (l.filter q).length := by
  induction l with
  | nil => simp
  | cons a rest ih =>
    by_cases hp : p a = true
    · simp [List.filter_cons, hp, h a hp]
      omega
    · simp only [List.filter_cons]
      rw [Bool.not_eq_true] at hp
      rw [hp]
      by_cases hq : q a = true
      · simp [hq]; omega
      · rw [Bool.not_eq_true] at hq
        rw [hq]
        exact ih

/-- A filter and its complement split the length. -/
theorem filter_length_complement {α : Type} (l : List α) (p : α → Bool) :
    (l.filter p).length + (l.filter (fun a => !(p a))).length = l.length := by
  induction l with
  | nil => simp
  | cons a rest ih =>
    by_cases hp : p a = true
    · simp [List.filter_cons, hp]
      omega
    · rw [Bool.not_eq_true] at hp
      simp [List.filter_cons, hp]
      omega

/-- The enqueueing step appends exactly the first occurrences of the
not-yet-visited neighbours, to both the visited set and the queue. -/
theorem pushNbrs_spec (lvl : Nat) :
    ∀ (nbs visited : List Str) (queue : List (Str × Nat)),
    ∃ news : List Str,
      (pushNbrs lvl nbs visited queue).1 = visited ++ news
      ∧ (pushNbrs lvl nbs visited queue).2 = queue ++ news.map (fun x => (x, lvl))
      ∧ news.Nodup
      ∧ (∀ x ∈ news, x ∈ nbs ∧ x ∉ visited)
      ∧ (∀ x ∈ nbs, x ∉ visited → x ∈ news) := by
  intro nbs
  induction nbs with
  | nil =>
    intro visited queue
    exact ⟨[], by simp [pushNbrs], by simp [pushNbrs], List.nodup_nil, by simp, by simp⟩
  | cons nb rest ih =>
    intro visited queue
    by_cases h : nb ∈ visited
    · obtain ⟨news, h1, h2, h3, h4, h5⟩ := ih visited queue
      refine ⟨news, ?_, ?_, h3, ?_, ?_⟩
      · rw [pushNbrs, if_pos h]; exact h1
      · rw [pushNbrs, if_pos h]; exact h2
      · intro x hx
        exact ⟨List.mem_cons_of_mem _ (h4 x hx).1, (h4 x hx).2⟩
      · intro x hx hxv
        cases List.mem_cons.mp hx with
        | inl e => exact absurd (e ▸ h) hxv
        | inr hm => exact h5 x hm hxv
    · obtain ⟨news, h1, h2, h3, h4, h5⟩ := ih (visited ++ [nb]) (queue ++ [(nb, lvl)])
      refine ⟨nb :: news, ?_, ?_, ?_, ?_, ?_⟩
      · rw [pushNbrs, if_neg h, h1]
        simp
      · rw [pushNbrs, if_neg h, h2]
        simp
      · refine List.Nodup.cons ?_ h3
        intro hc
        exact (h4 nb hc).2 (by simp)
      · intro x hx
        cases List.mem_cons.mp hx with
        | inl e => subst e; exact ⟨List.mem_cons_self _ _, h⟩
        | inr hm =>
          obtain ⟨hm1, hm2⟩ := h4 x hm
          refine ⟨List.mem_cons_of_mem _ hm1, fun hv => hm2 ?_⟩
          exact List.mem_append_left _ hv
      · intro x hx hxv
        cases List.mem_cons.mp hx with
        | inl e => subst e; exact List.mem_cons_self _ _
        | inr hm =>
          by_cases hxe : x = nb
          · subst hxe; exact List.mem_cons_self _ _
          · refine List.mem_cons_of_mem _ (h5 x hm ?_)
            intro hc
            cases List.mem_append.mp hc with
            | inl hv => exact hxv hv
            | inr hb => exact hxe (List.mem_singleton.mp hb)

/-- Growing the visited set cannot increase the unvisited count. -/
theorem unvis_append_le (pool visited : List Str) (nb : Str) :
    unvis pool (visited ++ [nb]) ≤ unvis pool visited := by
  apply filter_length_mono
  intro a ha
  simp only [decide_eq_true_eq] at ha ⊢
  intro hc
  exact ha (List.mem_append_left _ hc)

/-- Visiting a pool member strictly decreases the unvisited count. -/
theorem unvis_strict (pool visited : List Str) (nb : Str)
    (hp : nb ∈ pool) (hv : nb ∉ visited) :
    unvis pool (visited ++ [nb]) < unvis pool visited := by
  induction pool with
  | nil => simp at hp
  | cons a rest ih =>
    by_cases ha : a = nb
    · subst ha
      have h1 : unvis (a :: rest) (visited ++ [a])
          = unvis rest (visited ++ [a]) := by
        simp [unvis, List.filter_cons]
      have h2 : unvis (a :: rest) visited = 1 + unvis rest visited := by
        simp [unvis, List.filter_cons, hv]
        omega
      rw [h1, h2]
      have := unvis_append_le rest visited a
      omega
    · have hrest : nb ∈ rest := by
        cases List.mem_cons.mp hp with
        | inl e => exact absurd e.symm ha
        | inr hm => exact hm
      have step := ih hrest
      by_cases hav : a ∈ visited
      · have h1 : unvis (a :: rest) (visited ++ [nb]) = unvis rest (visited ++ [nb]) := by
          simp [unvis, List.filter_cons, List.mem_append, hav]
        have h2 : unvis (a :: rest) visited = unvis rest visited := by
          simp [unvis, List.filter_cons, hav]
        rw [h1, h2]; exact step
      · have h1 : unvis (a :: rest) (visited ++ [nb]) = 1 + unvis rest (visited ++ [nb]) := by
          simp [unvis, List.filter_cons, List.mem_append, hav, ha]
          omega
        have h2 : unvis (a :: rest) visited = 1 + unvis rest visited := by
          simp [unvis, List.filter_cons, hav]
          omega
        rw [h1, h2]
        omega

/-- Adjacency-list neighbours live in the pool. -/
theorem lookup_getD_sub_pool (adj : List (Str × List Str)) (id : Str) :
    ∀ x ∈ (alookup id adj).getD [], x ∈ adjPool adj := by
  induction adj with
  | nil => intro x hx; simp [alookup] at hx
  | cons p rest ih =>
    intro x hx
    by_cases h : p.1 = id
    · rw [alookup, if_pos h] at hx
      simp only [Option.getD_some] at hx
      simp only [adjPool, List.map_cons, List.flatten_cons]
      exact List.mem_append_left _ hx
    · rw [alookup, if_neg h] at hx
      simp only [adjPool, List.map_cons, List.flatten_cons]
      exact List.mem_append_right _ (ih x hx)

/-- Newly visited nodes trade queue growth against the unvisited
count. -/
theorem news_measure (pool : List Str) :
    ∀ (news visited : List Str), news.Nodup →
    (∀ x ∈ news, x ∈ pool ∧ x ∉ visited) →
    news.length + unvis pool (visited ++ news) ≤ unvis pool visited := by
  intro news
  induction news with
  | nil => intro visited _ _; simp
  | cons n rest ih =>
    intro visited hnd hcond
    have hassoc : visited ++ n :: rest = (visited ++ [n]) ++ rest := by simp
    rw [hassoc]
    have hih := ih (visited ++ [n]) (List.Nodup.of_cons hnd)
      (fun x hx => ⟨(hcond x (List.mem_cons_of_mem _ hx)).1, by
        intro hc
        cases List.mem_append.mp hc with
        | inl hv => exact (hcond x (List.mem_cons_of_mem _ hx)).2 hv
        | inr hb =>
          have : x = n := List.mem_singleton.mp hb
          exact (List.nodup_cons.mp hnd).1 (this ▸ hx)⟩)
    have hstrict := unvis_strict pool visited n
      (hcond n (List.mem_cons_self _ _)).1 (hcond n (List.mem_cons_self _ _)).2
    simp only [List.length_cons]
    omega

/-- One BFS iteration's pushes keep `queue length + unvisited pool
count` from growing. -/
theorem pushNbrs_measure (lvl : Nat) (pool nbs visited : List Str)
    (queue : List (Str × Nat)) (hsub : ∀ x ∈ nbs, x ∈ pool) :
    (pushNbrs lvl nbs visited queue).2.length
      + unvis pool (pushNbrs lvl nbs visited queue).1
      ≤ queue.length + unvis pool visited := by
  obtain ⟨news, h1, h2, h3, h4, h5⟩ := pushNbrs_spec lvl nbs visited queue
  rw [h1, h2]
  have := news_measure pool news visited h3
    (fun x hx => ⟨hsub x (h4 x hx).1, (h4 x hx).2⟩)
  simp only [List.length_append, List.length_map]
  omega

/-- The BFS loop with sufficient fuel: pops are distinct ids drawn from
the queue and the pool; the final visited set is the initial one plus
the pops; every queued id is popped; and a pop that was already visited
at entry must have been queued.  The fuel hypothesis is satisfiable for
every input (`bfsRun` passes `queue.length + pool.length`), because the
measure `queue.length + unvis pool visited` strictly decreases per
iteration. -/
theorem bfsFuel_spec (adj : List (Str × List Str)) :
    ∀ (fuel : Nat) (queue : List (Str × Nat)) (visited : List Str),
    queue.length + unvis (adjPool adj) visited ≤ fuel →
    (queue.map Prod.fst).Nodup →
    (∀ x ∈ queue.map Prod.fst, x ∈ visited) →
    ((bfsFuel adj fuel queue visited).1.map Prod.fst).Nodup
    ∧ (∀ x, x ∈ (bfsFuel adj fuel queue visited).2
         ↔ (x ∈ visited ∨ x ∈ (bfsFuel adj fuel queue visited).1.map Prod.fst))
    ∧ (∀ x ∈ (bfsFuel adj fuel queue visited).1.map Prod.fst,
         x ∈ queue.map Prod.fst ∨ x ∈ adjPool adj)
    ∧ (∀ x ∈ queue.map Prod.fst, x ∈ (bfsFuel adj fuel queue visited).1.map Prod.fst)
    ∧ (∀ x ∈ (bfsFuel adj fuel queue visited).1.map Prod.fst,
         x ∈ visited → x ∈ queue.map Prod.fst) := by
  intro fuel
  induction fuel with
  | zero =>
    intro queue visited hf hnd hqv
    match queue with
    | [] =>
      refine ⟨List.nodup_nil, ?_, ?_, ?_, ?_⟩ <;> simp [bfsFuel]
    | q :: qs => simp at hf
  | succ f ih =>
    intro queue visited hf hnd hqv
    match queue with
    | [] =>
      refine ⟨List.nodup_nil, ?_, ?_, ?_, ?_⟩ <;> simp [bfsFuel]
    | (id, lvl) :: rest =>
      obtain ⟨news, e1, e2, nnd, ncond, ncov⟩ :=
        pushNbrs_spec (lvl + 1) ((alookup id adj).getD []) visited rest
      have hidv : id ∈ visited := hqv id (by simp)
      have hrest_nd : (rest.map Prod.fst).Nodup := (List.nodup_cons.mp (by simpa using hnd)).2
      have hid_rest : id ∉ rest.map Prod.fst := (List.nodup_cons.mp (by simpa using hnd)).1
      have hsubpool : ∀ x ∈ (alookup id adj).getD [], x ∈ adjPool adj :=
        lookup_getD_sub_pool adj id
      have hmes := pushNbrs_measure (lvl + 1) (adjPool adj) ((alookup id adj).getD [])
        visited rest hsubpool
      have hf' : (pushNbrs (lvl + 1) ((alookup id adj).getD []) visited rest).2.length
          + unvis (adjPool adj) (pushNbrs (lvl + 1) ((alookup id adj).getD []) visited rest).1
          ≤ f := by
        simp only [List.length_cons] at hf
        omega
      have hq'ids : (pushNbrs (lvl + 1) ((alookup id adj).getD []) visited rest).2.map Prod.fst
          = rest.map Prod.fst ++ news := by
        rw [e2, List.map_append, mapfst_pair]
      have hnd' : ((pushNbrs (lvl + 1) ((alookup id adj).getD []) visited rest).2.map
          Prod.fst).Nodup := by
        rw [hq'ids]
        refine List.Nodup.append hrest_nd nnd ?_
        intro x hx1 hx2
        exact (ncond x hx2).2 (hqv x (by simp [hx1]))
      have hqv' : ∀ x ∈ (pushNbrs (lvl + 1) ((alookup id adj).getD []) visited rest).2.map
          Prod.fst, x ∈ (pushNbrs (lvl + 1) ((alookup id adj).getD []) visited rest).1 := by
        rw [e1, hq'ids]
        intro x hx
        cases List.mem_append.mp hx with
        | inl hx => exact List.mem_append_left _ (hqv x (by simp [hx]))
        | inr hx => exact List.mem_append_right _ hx
      obtain ⟨i1, i2, i3, i4, i5⟩ := ih _ _ hf' hnd' hqv'
      set r := bfsFuel adj f (pushNbrs (lvl + 1) ((alookup id adj).getD []) visited rest).2
        (pushNbrs (lvl + 1) ((alookup id adj).getD []) visited rest).1 with hr
      have hres : bfsFuel adj (f + 1) ((id, lvl) :: rest) visited
          = ((id, lvl) :: r.1, r.2) := rfl
      rw [hres]
      constructor
      · simp only [List.map_cons]
        refine List.nodup_cons.mpr ⟨?_, i1⟩
        intro hc
        have := i5 id hc (by rw [e1]; exact List.mem_append_left _ hidv)
        rw [hq'ids] at this
        cases List.mem_append.mp this with
        | inl h => exact hid_rest h
        | inr h => exact (ncond id h).2 hidv
      constructor
      · intro x
        rw [show ((id, lvl) :: r.1).map Prod.fst = id :: r.1.map Prod.fst from rfl]
        constructor
        · intro hx
          cases (i2 x).mp hx with
          | inl h =>
            rw [e1] at h
            cases List.mem_append.mp h with
            | inl h => exact Or.inl h
            | inr h =>
              refine Or.inr (List.mem_cons_of_mem _ ?_)
              exact i4 x (by rw [hq'ids]; exact List.mem_append_right _ h)
          | inr h => exact Or.inr (List.mem_cons_of_mem _ h)
        · intro hx
          cases hx with
          | inl h => exact (i2 x).mpr (Or.inl (by rw [e1]; exact List.mem_append_left _ h))
          | inr h =>
            cases List.mem_cons.mp h with
            | inl e =>
              subst e
              exact (i2 x).mpr (Or.inl (by rw [e1]; exact List.mem_append_left _ hidv))
            | inr h => exact (i2 x).mpr (Or.inr h)
      constructor
      · intro x hx
        rw [show ((id, lvl) :: r.1).map Prod.fst = id :: r.1.map Prod.fst from rfl] at hx
        cases List.mem_cons.mp hx with
        | inl e => subst e; exact Or.inl (by simp)
        | inr h =>
          cases i3 x h with
          | inl h =>
            rw [hq'ids] at h
            cases List.mem_append.mp h with
            | inl h => exact Or.inl (by simp [h])
            | inr h => exact Or.inr (hsubpool x (ncond x h).1)
          | inr h => exact Or.inr h
      constructor
      · intro x hx
        rw [show ((id, lvl) :: r.1).map Prod.fst = id :: r.1.map Prod.fst from rfl]
        simp only [List.map_cons, List.mem_cons] at hx
        cases hx with
        | inl e => exact List.mem_cons.mpr (Or.inl e)
        | inr h =>
          refine List.mem_cons_of_mem _ ?_
          exact i4 x (by rw [hq'ids]; exact List.mem_append_left _ h)
      · intro x hx hxv
        rw [show ((id, lvl) :: r.1).map Prod.fst = id :: r.1.map Prod.fst from rfl] at hx
        cases List.mem_cons.mp hx with
        | inl e => subst e; simp
        | inr h =>
          have := i5 x h (by rw [e1]; exact List.mem_append_left _ hxv)
          rw [hq'ids] at this
          cases List.mem_append.mp this with
          | inl h => simp [h]
          | inr h => exact absurd hxv (ncond x h).2

/-- Initialisation keys are the ids. -/
theorem initAdj_keys (ids : List Str) : (initAdj ids).map Prod.fst = ids := by
  induction ids with
  | nil => rfl
  | cons a r ih => simp [initAdj, List.map_cons] at ih ⊢; exact ih

/-- `addEdge` keeps the key list. -/
theorem addEdge_keys (adj : List (Str × List Str)) (k v : Str) :
    (addEdge adj k v).map Prod.fst = adj.map Prod.fst := by
  induction adj with
  | nil => rfl
  | cons p rest ih =>
    by_cases h : p.1 = k
    · simp [addEdge, h] at ih ⊢
      exact ih
    · simp [addEdge, h] at ih ⊢
      exact ih

/-- A fresh adjacency structure has an empty pool. -/
theorem initAdj_pool (ids : List Str) : adjPool (initAdj ids) = [] := by
  induction ids with
  | nil => rfl
  | cons a r ih => simp [initAdj, adjPool]

/-- Pool of a cons. -/
theorem adjPool_cons (q : Str × List Str) (rest : List (Str × List Str)) :
    adjPool (q :: rest) = q.2 ++ adjPool rest := by
  simp [adjPool]

/-- `addEdge` adds at most `v` to the pool. -/
theorem addEdge_pool (k v : Str) :
    ∀ (adj : List (Str × List Str)), ∀ x ∈ adjPool (addEdge adj k v),
    x ∈ adjPool adj ∨ x = v := by
  intro adj
  induction adj with
  | nil => intro x hx; simp [addEdge, adjPool] at hx
  | cons p rest ih =>
    intro x hx
    have hstep : addEdge (p :: rest) k v
        = (if p.1 = k then (p.1, p.2 ++ [v]) else p) :: addEdge rest k v := rfl
    rw [hstep, adjPool_cons] at hx
    rw [adjPool_cons]
    by_cases h : p.1 = k
    · rw [if_pos h] at hx
      have hx' : x ∈ (p.2 ++ [v]) ++ adjPool (addEdge rest k v) := hx
      cases List.mem_append.mp hx' with
      | inl hx2 =>
        cases List.mem_append.mp hx2 with
        | inl hx3 => exact Or.inl (List.mem_append_left _ hx3)
        | inr hx3 => exact Or.inr (List.mem_singleton.mp hx3)
      | inr hx2 =>
        cases ih x hx2 with
        | inl hh => exact Or.inl (List.mem_append_right _ hh)
        | inr hh => exact Or.inr hh
    · rw [if_neg h] at hx
      cases List.mem_append.mp hx with
      | inl hx2 => exact Or.inl (List.mem_append_left _ hx2)
      | inr hx2 =>
        cases ih x hx2 with
        | inl hh => exact Or.inl (List.mem_append_right _ hh)
        | inr hh => exact Or.inr hh

/-- Explicit population keeps the key list. -/
theorem popGraphs_keys : ∀ (cs : List Conn) (gr : List (Str × List Str) × List (Str × List Str)),
    (popGraphs cs gr).1.map Prod.fst = gr.1.map Prod.fst := by
  intro cs
  induction cs with
  | nil => intro gr; rfl
  | cons c rest ih =>
    intro gr
    by_cases h : ((alookup c.from_ gr.1).isSome && (alookup c.to_ gr.1).isSome) = true
    · rw [popGraphs, if_pos h, ih]
      exact addEdge_keys _ _ _
    · rw [popGraphs, if_neg h, ih]

/-- Explicitly populated neighbours are old pool members or keys (the
guard admits only keys). -/
theorem popGraphs_pool : ∀ (cs : List Conn) (gr : List (Str × List Str) × List (Str × List Str)),
    ∀ x ∈ adjPool (popGraphs cs gr).1, x ∈ adjPool gr.1 ∨ x ∈ gr.1.map Prod.fst := by
  intro cs
  induction cs with
  | nil => intro gr x hx; exact Or.inl hx
  | cons c rest ih =>
    intro gr x hx
    by_cases h : ((alookup c.from_ gr.1).isSome && (alookup c.to_ gr.1).isSome) = true
    · rw [popGraphs, if_pos h] at hx
      have hto : c.to_ ∈ gr.1.map Prod.fst :=
        (alookup_isSome_iff _ _).mp (Bool.and_elim_right h)
      cases ih _ x hx with
      | inl hp =>
        cases addEdge_pool c.from_ c.to_ gr.1 x hp with
        | inl hh => exact Or.inl hh
        | inr hh => exact Or.inr (hh ▸ hto)
      | inr hk =>
        rw [addEdge_keys] at hk
        exact Or.inr hk
    · rw [popGraphs, if_neg h] at hx
      exact ih _ x hx

/-- Chain population keeps the key list. -/
theorem chainGraphs_keys : ∀ (l : List Str) (gr : List (Str × List Str) × List (Str × List Str)),
    (chainGraphs l gr).1.map Prod.fst = gr.1.map Prod.fst := by
  intro l
  induction l with
  | nil => intro gr; rfl
  | cons a rest ih =>
    cases rest with
    | nil => intro gr; rfl
    | cons b rest2 =>
      intro gr
      rw [chainGraphs, ih]
      exact addEdge_keys _ _ _

/-- Chain neighbours are old pool members or chain ids. -/
theorem chainGraphs_pool : ∀ (l : List Str) (gr : List (Str × List Str) × List (Str × List Str)),
    ∀ x ∈ adjPool (chainGraphs l gr).1, x ∈ adjPool gr.1 ∨ x ∈ l := by
  intro l
  induction l with
  | nil => intro gr x hx; exact Or.inl hx
  | cons a rest ih =>
    cases rest with
    | nil => intro gr x hx; exact Or.inl hx
    | cons b rest2 =>
      intro gr x hx
      rw [chainGraphs] at hx
      cases ih _ x hx with
      | inl hp =>
        cases addEdge_pool a b gr.1 x hp with
        | inl hh => exact Or.inl hh
        | inr hh => exact Or.inr (by simp [hh])
      | inr hk => exact Or.inr (List.mem_cons_of_mem _ hk)

/-- The built graph is keyed by the step ids. -/
theorem buildGraphs_keys (ids : List Str) (conns : List Conn) :
    (buildGraphs ids conns).1.map Prod.fst = ids := by
  unfold buildGraphs
  by_cases h : conns ≠ []
  · rw [if_pos h, popGraphs_keys, initAdj_keys]
  · rw [if_neg h, chainGraphs_keys, initAdj_keys]

/-- Every neighbour stored in the built graph is a step id. -/
theorem buildGraphs_pool (ids : List Str) (conns : List Conn) :
    ∀ x ∈ adjPool (buildGraphs ids conns).1, x ∈ ids := by
  unfold buildGraphs
  by_cases h : conns ≠ []
  · rw [if_pos h]
    intro x hx
    cases popGraphs_pool conns _ x hx with
    | inl hp => rw [initAdj_pool] at hp; simp at hp
    | inr hk => rw [initAdj_keys] at hk; exact hk
  · rw [if_neg h]
    intro x hx
    cases chainGraphs_pool ids _ x hx with
    | inl hp => rw [initAdj_pool] at hp; simp at hp
    | inr hk => exact hk

/-- `upsert` keeps the keys, appending the new one when absent. -/
theorem upsert_keys {α : Type} (m : List (Str × α)) (k : Str) (v : α) :
    (upsert m k v).map Prod.fst
      = if (alookup k m).isSome then m.map Prod.fst else m.map Prod.fst ++ [k] := by
  unfold upsert
  by_cases h : (alookup k m).isSome = true
  · rw [if_pos h, if_pos h, List.map_map]
    apply List.map_congr_left
    intro kv _
    by_cases hp : kv.1 = k
    · simp [Function.comp, hp]
    · simp [Function.comp, hp]
  · rw [if_neg h, if_neg h, List.map_append]
    rfl

/-- Step-map keys are distinct. -/
theorem buildStepMap_keys_nodup (steps : List Step) :
    ((buildStepMap steps).map Prod.fst).Nodup := by
  unfold buildStepMap
  suffices H : ∀ (l : List (Nat × Step)) (m : List (Str × Step)),
      (m.map Prod.fst).Nodup →
      ((l.foldl (fun m p => upsert m (stepKey p.2 p.1) p.2) m).map Prod.fst).Nodup by
    exact H steps.enum [] List.nodup_nil
  intro l
  induction l with
  | nil => intro m hm; exact hm
  | cons p rest ih =>
    intro m hm
    rw [List.foldl_cons]
    apply ih
    rw [upsert_keys]
    by_cases h : (alookup (stepKey p.2 p.1) m).isSome = true
    · rw [if_pos h]; exact hm
    · rw [if_neg h]
      have hnm : stepKey p.2 p.1 ∉ m.map Prod.fst := by
        intro hc
        exact h ((alookup_isSome_iff _ _).mpr hc)
      rw [List.nodup_append]
      exact ⟨hm, List.nodup_singleton _, by
        intro a ha hb
        rw [List.mem_singleton] at hb
        exact hnm (hb ▸ ha)⟩

/-- Numeric insertion permutes a cons. -/
theorem insertNum_perm (x : Str) : ∀ (l : List Str), (insertNum x l).Perm (x :: l) := by
  intro l
  induction l with
  | nil => exact List.Perm.refl _
  | cons y ys ih =>
    rw [insertNum]
    by_cases h : natOfDigits x ≤ natOfDigits y
    · rw [if_pos h]
    · rw [if_neg h]
      exact List.Perm.trans (List.Perm.cons _ ih) (List.Perm.swap _ _ _)

/-- Numeric sorting is a permutation. -/
theorem sortNum_perm : ∀ (l : List Str), (sortNum l).Perm l := by
  intro l
  induction l with
  | nil => exact List.Perm.refl _
  | cons a rest ih =>
    rw [sortNum, List.foldr_cons]
    exact List.Perm.trans (insertNum_perm a _) (List.Perm.cons _ ih)

/-- `Object.keys` reordering is a permutation of the insertion order. -/
theorem objKeys_perm (l : List Str) : (objKeys l).Perm l := by
  unfold objKeys
  refine List.Perm.trans (List.Perm.append (sortNum_perm _) (List.Perm.refl _)) ?_
  exact List.filter_append_perm _ l

/-- The step ids are distinct. -/
theorem uniqueIds_nodup (steps : List Step) : (uniqueIds steps).Nodup := by
  unfold uniqueIds
  exact (List.Perm.nodup_iff (objKeys_perm _)).mpr (buildStepMap_keys_nodup steps)

/-- Roots are step ids. -/
theorem rootsOf_sub (ids : List Str) (rev : List (Str × List Str)) :
    ∀ x ∈ rootsOf ids rev, x ∈ ids := by
  match ids with
  | [] =>
    intro x hx
    have hx' : x ∈ ([] : List Str).filter (fun id => ((alookup id rev).getD []).isEmpty) := hx
    simp at hx'
  | i :: rest =>
    intro x hx
    have hx' : x ∈ (if (i :: rest).filter (fun id => ((alookup id rev).getD []).isEmpty) = []
        then [i] else (i :: rest).filter (fun id => ((alookup id rev).getD []).isEmpty)) := hx
    by_cases h : (i :: rest).filter (fun id => ((alookup id rev).getD []).isEmpty) = []
    · rw [if_pos h] at hx'
      rw [List.mem_singleton.mp hx']
      exact List.mem_cons_self _ _
    · rw [if_neg h] at hx'
      exact (List.mem_filter.mp hx').1

/-- Roots are distinct. -/
theorem rootsOf_nodup (ids : List Str) (rev : List (Str × List Str))
    (hnd : ids.Nodup) : (rootsOf ids rev).Nodup := by
  match ids with
  | [] => exact List.Nodup.filter _ hnd
  | i :: rest =>
    show (if (i :: rest).filter (fun id => ((alookup id rev).getD []).isEmpty) = []
        then [i] else (i :: rest).filter (fun id => ((alookup id rev).getD []).isEmpty)).Nodup
    by_cases h : (i :: rest).filter (fun id => ((alookup id rev).getD []).isEmpty) = []
    · rw [if_pos h]
      exact List.nodup_singleton _
    · rw [if_neg h]
      exact List.Nodup.filter _ hnd

/-- The disconnected pass appends exactly the unvisited ids, in
order. -/
theorem appendUnvisited_fst : ∀ (ids : List Str) (visited : List Str)
    (acc : List (Str × Nat)),
    (appendUnvisited ids visited acc).map Prod.fst
      = acc.map Prod.fst ++ ids.filter (fun id => !(decide (id ∈ visited))) := by
  intro ids
  induction ids with
  | nil => intro visited acc; simp [appendUnvisited]
  | cons a rest ih =>
    intro visited acc
    rw [appendUnvisited, List.foldl_cons]
    by_cases h : a ∈ visited
    · rw [if_pos h]
      have := ih visited acc
      rw [appendUnvisited] at this
      rw [this, List.filter_cons]
      simp [h]
    · rw [if_neg h]
      have := ih visited (acc ++ [(a, (maxLevel acc + 1).toNat)])
      rw [appendUnvisited] at this
      rw [this, List.filter_cons]
      simp [h]

/-- The leveling assigns every step id exactly once: the assigned ids
are the step ids as a set, and their number equals the number of
distinct step ids. -/
theorem levelAssignments_ids (steps : List Step) (conns : List Conn) :
    (∀ x, x ∈ (levelAssignments steps conns).map Prod.fst ↔ x ∈ uniqueIds steps)
    ∧ ((levelAssignments steps conns).map Prod.fst).length = (uniqueIds steps).length := by
  have hnd_ids : (uniqueIds steps).Nodup := uniqueIds_nodup steps
  have hroots_sub := rootsOf_sub (uniqueIds steps) (buildGraphs (uniqueIds steps) conns).2
  have hroots_nd := rootsOf_nodup (uniqueIds steps) (buildGraphs (uniqueIds steps) conns).2 hnd_ids
  have hpool := buildGraphs_pool (uniqueIds steps) conns
  set ids := uniqueIds steps with hids
  set gr := buildGraphs ids conns with hgr
  set roots := rootsOf ids gr.2 with hroots
  set bout := bfsRun gr.1 (roots.map (fun id => (id, 0))) roots with hbout
  have hdef : levelAssignments steps conns = appendUnvisited ids bout.2 bout.1 := rfl
  have hqids : (roots.map (fun id => (id, 0))).map Prod.fst = roots := mapfst_pair roots 0
  have hf : (roots.map (fun id => (id, 0))).length + unvis (adjPool gr.1) roots
      ≤ (roots.map (fun id => (id, 0))).length + (adjPool gr.1).length := by
    have := List.length_filter_le (fun x => decide (x ∉ roots)) (adjPool gr.1)
    unfold unvis
    omega
  obtain ⟨i1, i2, i3, i4, i5⟩ := bfsFuel_spec gr.1
    ((roots.map (fun id => (id, 0))).length + (adjPool gr.1).length)
    (roots.map (fun id => (id, 0))) roots hf (by rw [hqids]; exact hroots_nd)
    (by rw [hqids]; intro x hx; exact hx)
  have hb : bfsFuel gr.1 ((roots.map (fun id => (id, 0))).length + (adjPool gr.1).length)
      (roots.map (fun id => (id, 0))) roots = bout := rfl
  rw [hb] at i1 i2 i3 i4 i5
  set P := bout.1.map Prod.fst with hP
  have hPnd : P.Nodup := i1
  have hPsub : ∀ x ∈ P, x ∈ ids := by
    intro x hx
    cases i3 x hx with
    | inl h => exact hroots_sub x (by rwa [hqids] at h)
    | inr h => exact hpool x h
  have hrootsP : ∀ x ∈ roots, x ∈ P := fun x hx => i4 x (by rw [hqids]; exact hx)
  have hvfin : ∀ x, x ∈ bout.2 ↔ x ∈ P := by
    intro x
    rw [i2 x]
    constructor
    · intro h
      cases h with
      | inl h => exact hrootsP x h
      | inr h => exact h
    · exact Or.inr
  have hasg : (levelAssignments steps conns).map Prod.fst
      = P ++ ids.filter (fun id => !(decide (id ∈ bout.2))) := by
    rw [hdef]
    exact appendUnvisited_fst ids bout.2 bout.1
  have hfc : ids.filter (fun id => !(decide (id ∈ bout.2)))
      = ids.filter (fun id => !(decide (id ∈ P))) := by
    apply List.filter_congr
    intro a _
    exact congrArg Bool.not (decide_eq_decide.mpr (hvfin a))
  constructor
  · intro x
    rw [hasg, List.mem_append]
    constructor
    · intro h
      cases h with
      | inl h => exact hPsub x h
      | inr h => exact (List.mem_filter.mp h).1
    · intro h
      by_cases hp : x ∈ P
      · exact Or.inl hp
      · exact Or.inr (List.mem_filter.mpr ⟨h, by simp [hvfin x, hp]⟩)
  · rw [hasg, List.length_append, hfc]
    have hcomp := filter_length_complement ids (fun a => decide (a ∈ P))
    have hPlen : (ids.filter (fun a => decide (a ∈ P))).length = P.length := by
      have hnd1 : (ids.filter (fun a => decide (a ∈ P))).Nodup := List.Nodup.filter _ hnd_ids
      have hmem : ∀ x, x ∈ ids.filter (fun a => decide (a ∈ P)) ↔ x ∈ P := by
        intro x
        rw [List.mem_filter]
        constructor
        · intro hh
          exact of_decide_eq_true hh.2
        · intro h
          exact ⟨hPsub x h, decide_eq_true h⟩
      have e1 : (ids.filter (fun a => decide (a ∈ P))).toFinset = P.toFinset := by
        ext x
        simp only [List.mem_toFinset]
        exact hmem x
      have c1 := List.toFinset_card_of_nodup hnd1
      have c2 := List.toFinset_card_of_nodup hPnd
      rw [e1] at c1
      omega
    omega

/-- Membership in a level insertion. -/
theorem insertLevel_mem (n : Nat) : ∀ (ks : List Nat) (x : Nat),
    x ∈ insertLevel n ks ↔ x = n ∨ x ∈ ks := by
  intro ks
  induction ks with
  | nil => intro x; simp [insertLevel]
  | cons m ms ih =>
    intro x
    rw [insertLevel]
    by_cases h1 : n < m
    · rw [if_pos h1]
      simp [List.mem_cons]
    · rw [if_neg h1]
      by_cases h2 : n = m
      · rw [if_pos h2]
        subst h2
        simp [List.mem_cons]
      · rw [if_neg h2]
        simp only [List.mem_cons, ih x]
        tauto

/-- Level insertion preserves strict sortedness. -/
theorem insertLevel_pairwise (n : Nat) : ∀ (ks : List Nat),
    ks.Pairwise (· < ·) → (insertLevel n ks).Pairwise (· < ·) := by
  intro ks
  induction ks with
  | nil => intro _; simp [insertLevel]
  | cons m ms ih =>
    intro hp
    rw [List.pairwise_cons] at hp
    rw [insertLevel]
    by_cases h1 : n < m
    · rw [if_pos h1]
      rw [List.pairwise_cons]
      refine ⟨?_, List.pairwise_cons.mpr hp⟩
      intro x hx
      cases List.mem_cons.mp hx with
      | inl e => exact e ▸ h1
      | inr hm => exact Nat.lt_trans h1 (hp.1 x hm)
    · rw [if_neg h1]
      by_cases h2 : n = m
      · rw [if_pos h2]
        exact List.pairwise_cons.mpr hp
      · rw [if_neg h2]
        rw [List.pairwise_cons]
        constructor
        · intro x hx
          cases (insertLevel_mem n ms x).mp hx with
          | inl e => subst e; omega
          | inr hm => exact hp.1 x hm
        · exact ih hp.2

/-- Membership in the level-key accumulation. -/
theorem levelKeys_fold_mem : ∀ (asg : List (Str × Nat)) (acc : List Nat) (x : Nat),
    x ∈ asg.foldl (fun ks p => insertLevel p.2 ks) acc
      ↔ x ∈ acc ∨ ∃ p ∈ asg, p.2 = x := by
  intro asg
  induction asg with
  | nil => intro acc x; simp
  | cons p rest ih =>
    intro acc x
    rw [List.foldl_cons, ih]
    rw [insertLevel_mem]
    constructor
    · intro h
      cases h with
      | inl h =>
        cases h with
        | inl e => exact Or.inr ⟨p, List.mem_cons_self _ _, e.symm⟩
        | inr hm => exact Or.inl hm
      | inr h =>
        obtain ⟨q, hq, he⟩ := h
        exact Or.inr ⟨q, List.mem_cons_of_mem _ hq, he⟩
    · intro h
      cases h with
      | inl h => exact Or.inl (Or.inr h)
      | inr h =>
        obtain ⟨q, hq, he⟩ := h
        cases List.mem_cons.mp hq with
        | inl e => exact Or.inl (Or.inl (by rw [← he, e]))
        | inr hm => exact Or.inr ⟨q, hm, he⟩

/-- The level-key accumulation stays strictly sorted. -/
theorem levelKeys_fold_pairwise : ∀ (asg : List (Str × Nat)) (acc : List Nat),
    acc.Pairwise (· < ·) →
    (asg.foldl (fun ks p => insertLevel p.2 ks) acc).Pairwise (· < ·) := by
  intro asg
  induction asg with
  | nil => intro acc h; exact h
  | cons p rest ih =>
    intro acc h
    rw [List.foldl_cons]
    exact ih _ (insertLevel_pairwise _ _ h)

/-- Every assigned level is a level key. -/
theorem levelKeys_cover (asg : List (Str × Nat)) : ∀ p ∈ asg, p.2 ∈ levelKeys asg := by
  intro p hp
  unfold levelKeys
  exact (levelKeys_fold_mem asg [] p.2).mpr (Or.inr ⟨p, hp, rfl⟩)

/-- Level keys are distinct. -/
theorem levelKeys_nodup (asg : List (Str × Nat)) : (levelKeys asg).Nodup := by
  unfold levelKeys
  have := levelKeys_fold_pairwise asg [] List.Pairwise.nil
  exact this.imp Nat.ne_of_lt

/-- Grouping by a covering, duplicate-free key list preserves the
number of entries. -/
theorem grouped_flat_length : ∀ (keys : List Nat) (asg : List (Str × Nat)),
    keys.Nodup → (∀ p ∈ asg, p.2 ∈ keys) →
    (keys.flatMap (fun l => (asg.filter (fun p => p.2 = l)).map Prod.fst)).length
      = asg.length := by
  intro keys
  induction keys with
  | nil =>
    intro asg _ hcov
    match asg with
    | [] => rfl
    | p :: rest => exact absurd (hcov p (List.mem_cons_self _ _)) (List.not_mem_nil _)
  | cons k ks ih =>
    intro asg hnd hcov
    rw [List.flatMap_cons, List.length_append]
    have hrest : ks.flatMap (fun l => (asg.filter (fun p => p.2 = l)).map Prod.fst)
        = ks.flatMap (fun l =>
            ((asg.filter (fun p => !(decide (p.2 = k)))).filter (fun p => p.2 = l)).map
              Prod.fst) := by
      rw [show ks.flatMap (fun l => (asg.filter (fun p => p.2 = l)).map Prod.fst)
          = (ks.map (fun l => (asg.filter (fun p => p.2 = l)).map Prod.fst)).flatten by
        rw [List.flatMap_def]]
      rw [show ks.flatMap (fun l =>
            ((asg.filter (fun p => !(decide (p.2 = k)))).filter (fun p => p.2 = l)).map
              Prod.fst)
          = (ks.map (fun l =>
            ((asg.filter (fun p => !(decide (p.2 = k)))).filter (fun p => p.2 = l)).map
              Prod.fst)).flatten by
        rw [List.flatMap_def]]
      refine congrArg _ (List.map_congr_left ?_)
      intro l hl
      have hlk : l ≠ k := by
        intro e
        exact (List.nodup_cons.mp hnd).1 (e ▸ hl)
      refine congrArg _ ?_
      rw [List.filter_filter]
      apply List.filter_congr
      intro p _
      by_cases hp : p.2 = l
      · simp [hp, hlk]
      · simp [hp]
    rw [hrest]
    have hih := ih (asg.filter (fun p => !(decide (p.2 = k))))
      (List.nodup_cons.mp hnd).2
      (fun p hp => by
        have h1 := List.mem_filter.mp hp
        have h2 := hcov p h1.1
        cases List.mem_cons.mp h2 with
        | inl e => simp [e] at h1
        | inr hm => exact hm)
    rw [hih]
    have hcomp := filter_length_complement asg (fun p => decide (p.2 = k))
    simp only [List.length_map]
    omega

/-- Grouping preserves the ids as a set. -/
theorem grouped_flat_mem (keys : List Nat) (asg : List (Str × Nat))
    (hcov : ∀ p ∈ asg, p.2 ∈ keys) (x : Str) :
    x ∈ keys.flatMap (fun l => (asg.filter (fun p => p.2 = l)).map Prod.fst)
      ↔ x ∈ asg.map Prod.fst := by
  rw [List.mem_flatMap]
  constructor
  · intro h
    obtain ⟨l, _, hx⟩ := h
    obtain ⟨p, hp, he⟩ := List.mem_map.mp hx
    exact List.mem_map.mpr ⟨p, (List.mem_filter.mp hp).1, he⟩
  · intro h
    obtain ⟨p, hp, he⟩ := List.mem_map.mp h
    refine ⟨p.2, hcov p hp, ?_⟩
    exact List.mem_map.mpr ⟨p, List.mem_filter.mpr ⟨hp, by simp⟩, he⟩

/-- The row contents are the level-grouped assignment ids. -/
theorem flowRows_flat (steps : List Step) (conns : List Conn) :
    (flowRows steps conns).flatMap Prod.snd
      = (levelKeys (levelAssignments steps conns)).flatMap
          (fun l => ((levelAssignments steps conns).filter (fun p => p.2 = l)).map
            Prod.fst) := by
  unfold flowRows nodesByLevel
  rw [List.flatMap_map]

/-- The row contents are the level-grouped assignment ids. -/
theorem flowRows_flat_length (steps : List Step) (conns : List Conn) :
    ((flowRows steps conns).flatMap Prod.snd).length = (uniqueIds steps).length := by
  rw [flowRows_flat]
  rw [grouped_flat_length _ _ (levelKeys_nodup _) (levelKeys_cover _)]
  have := (levelAssignments_ids steps conns).2
  rwa [List.length_map] at this

/-- The row contents are the level-grouped assignment ids. -/
theorem flowRows_flat_mem (steps : List Step) (conns : List Conn) (x : Str) :
    x ∈ (flowRows steps conns).flatMap Prod.snd ↔ x ∈ uniqueIds steps := by
  rw [flowRows_flat]
  rw [grouped_flat_mem _ _ (levelKeys_cover _) x]
  exact (levelAssignments_ids steps conns).1 x

/-- One shape per row node. -/
theorem shapeRow_len (m : List (Str × Step)) (lvl len : Nat) :
    ∀ (nodes : List (Nat × Str)) (g : Gen),
    (shapeRow m lvl len nodes g).1.length = nodes.length := by
  intro nodes
  induction nodes with
  | nil => intro g; rfl
  | cons p rest ih =>
    intro g
    simp only [shapeRow, List.length_cons]
    rw [ih]

/-- One shape per levelled node. -/
theorem shapeRows_len (m : List (Str × Step)) :
    ∀ (rows : List (Nat × List Str)) (g : Gen),
    (shapeRows m rows g).1.length = (rows.flatMap Prod.snd).length := by
  intro rows
  induction rows with
  | nil => intro g; rfl
  | cons r rest ih =>
    intro g
    simp only [shapeRows, List.length_append, List.flatMap_cons]
    rw [shapeRow_len, ih]
    simp

/-- One connector per connection whose two endpoints resolve. -/
theorem connLoop_count (sids : List (Str × Str)) :
    ∀ (conns : List Conn) (g : Gen),
    (connLoop sids conns g).1.length
      = (conns.filter (fun c =>
          (alookup c.from_ sids).isSome && (alookup c.to_ sids).isSome)).length := by
  intro conns
  induction conns with
  | nil => intro g; rfl
  | cons c rest ih =>
    intro g
    cases hf : alookup c.from_ sids with
    | none =>
      rw [connLoop, hf]
      cases ht : alookup c.to_ sids with
      | none =>
        rw [List.filter_cons]
        simp only [hf, ht, Option.isSome_none, Bool.false_and, Bool.and_false]
        exact ih g
      | some w =>
        rw [List.filter_cons]
        simp only [hf, ht, Option.isSome_none, Option.isSome_some, Bool.false_and]
        exact ih g
    | some v =>
      rw [connLoop, hf]
      cases ht : alookup c.to_ sids with
      | none =>
        rw [List.filter_cons]
        simp only [hf, ht, Option.isSome_none, Option.isSome_some, Bool.true_and]
        exact ih g
      | some w =>
        rw [List.filter_cons]
        simp only [hf, ht, Option.isSome_some, Bool.true_and, List.length_cons]
        rw [ih]
        simp

/-- C8: with a nonempty connection list, the connector cells correspond
exactly to the connections whose `from` and `to` both name declared
step ids - a connection with an unknown endpoint produces no connector
and is silently skipped (the model has no error path) - and the number
of vertex cells equals the number of distinct step ids, independent of
the connections. -/
theorem c8_unresolved_connection_dropped (steps : List Step) (conns : List Conn)
    (g : Gen) (h : conns ≠ []) :
    ((createFlowchartCells steps conns g).1.filter (fun c => c.edge)).length
      = (conns.filter (fun c => decide (c.from_ ∈ uniqueIds steps)
           && decide (c.to_ ∈ uniqueIds steps))).length
    ∧ ((createFlowchartCells steps conns g).1.filter (fun c => c.vertex)).length
      = (uniqueIds steps).length := by
  have hkeys := (shapeRows_spec (buildStepMap steps) (flowRows steps conns) g).2
  constructor
  · unfold createFlowchartCells
    rw [List.filter_append]
    have hsh : ((shapeRows (buildStepMap steps) (flowRows steps conns) g).1.filter
        (fun c => c.edge)) = [] := by
      apply List.filter_eq_nil_iff.mpr
      intro c hc
      simp [(shapeRows_flags _ _ _ c hc).2]
    rw [hsh, List.nil_append]
    unfold connectorPhase
    rw [if_pos h]
    have hfl : ((connLoop (shapeRows (buildStepMap steps) (flowRows steps conns) g).2.1
        conns (shapeRows (buildStepMap steps) (flowRows steps conns) g).2.2).1.filter
        (fun c => c.edge))
        = (connLoop (shapeRows (buildStepMap steps) (flowRows steps conns) g).2.1
        conns (shapeRows (buildStepMap steps) (flowRows steps conns) g).2.2).1 := by
      apply List.filter_eq_self.mpr
      intro c hc
      simp [(connLoop_flags _ _ _ c hc).1]
    rw [hfl, connLoop_count]
    apply congrArg List.length
    apply List.filter_congr
    intro c _
    have h1 : (alookup c.from_ (shapeRows (buildStepMap steps)
        (flowRows steps conns) g).2.1).isSome = decide (c.from_ ∈ uniqueIds steps) := by
      apply Bool.eq_iff_iff.mpr
      rw [alookup_isSome_iff, hkeys, decide_eq_true_iff]
      exact flowRows_flat_mem steps conns c.from_
    have h2 : (alookup c.to_ (shapeRows (buildStepMap steps)
        (flowRows steps conns) g).2.1).isSome = decide (c.to_ ∈ uniqueIds steps) := by
      apply Bool.eq_iff_iff.mpr
      rw [alookup_isSome_iff, hkeys, decide_eq_true_iff]
      exact flowRows_flat_mem steps conns c.to_
    rw [h1, h2]
  · unfold createFlowchartCells
    rw [List.filter_append]
    have hco : ((connectorPhase (buildStepMap steps) (uniqueIds steps)
        (shapeRows (buildStepMap steps) (flowRows steps conns) g).2.1 conns
        (shapeRows (buildStepMap steps) (flowRows steps conns) g).2.2).1.filter
        (fun c => c.vertex)) = [] := by
      apply List.filter_eq_nil_iff.mpr
      intro c hc
      unfold connectorPhase at hc
      rw [if_pos h] at hc
      simp [(connLoop_flags _ _ _ c hc).2]
    have hsh : ((shapeRows (buildStepMap steps) (flowRows steps conns) g).1.filter
        (fun c => c.vertex)) = (shapeRows (buildStepMap steps) (flowRows steps conns) g).1 := by
      apply List.filter_eq_self.mpr
      intro c hc
      simp [(shapeRows_flags _ _ _ c hc).1]
    rw [hco, hsh, List.append_nil, shapeRows_len]
    exact flowRows_flat_length steps conns

/-- Steps A and B for the unresolved-connection scenario. -/
def unresSteps : List Step := [mkStep "A" "A", mkStep "B" "B"]

/-- One resolvable connection and two whose endpoints X and Y are not
declared step ids. -/
def unresConns : List Conn :=
  [mkConn "A" "B" "go", mkConn "X" "B" "", mkConn "A" "Y" ""]

/-- Witness for C8 at a concrete input: two steps, one resolvable and
two unresolvable connections; the build has exactly one connector cell
and two vertex cells. -/
theorem c8_unresolved_connection_dropped_witness :
    (unresConns ≠ [])
    ∧ (((createFlowchartCells unresSteps unresConns Gen.fresh).1.filter
          (fun c => c.edge)).length
        = (unresConns.filter (fun c => decide (c.from_ ∈ uniqueIds unresSteps)
             && decide (c.to_ ∈ uniqueIds unresSteps))).length
       ∧ ((createFlowchartCells unresSteps unresConns Gen.fresh).1.filter
          (fun c => c.vertex)).length
        = (uniqueIds unresSteps).length) :=
  ⟨by decide,
   c8_unresolved_connection_dropped unresSteps unresConns Gen.fresh (by decide)⟩

/-!
## C10: sequence-diagram interaction offsets
-/

/-- Replacing the entries of key `k` leaves other lookups alone. -/
theorem alookup_map_replace {α : Type} (k : Str) (v : α) :
    ∀ (m : List (Str × α)) (x : Str), ¬ x = k →
    alookup x (m.map (fun kv => if kv.1 = k then (k, v) else kv)) = alookup x m := by
  intro m
  induction m with
  | nil => intro x _; rfl
  | cons q rest ih =>
    intro x hx
    simp only [List.map_cons]
    by_cases hq : q.1 = k
    · rw [if_pos hq, alookup, alookup, if_neg (fun e => hx e.symm), if_neg]
      · exact ih x hx
      · intro e
        exact hx (e.symm.trans hq)
    · rw [if_neg hq]
      rw [alookup, alookup]
      by_cases hqx : q.1 = x
      · rw [if_pos hqx, if_pos hqx]
      · rw [if_neg hqx, if_neg hqx]
        exact ih x hx

/-- Replacing the entries of an existing key makes its lookup the new
value. -/
theorem alookup_map_replace_self {α : Type} (k : Str) (v : α) :
    ∀ (m : List (Str × α)), (alookup k m).isSome = true →
    alookup k (m.map (fun kv => if kv.1 = k then (k, v) else kv)) = some v := by
  intro m
  induction m with
  | nil => intro h; simp [alookup] at h
  | cons q rest ih =>
    intro h
    simp only [List.map_cons]
    by_cases hq : q.1 = k
    · rw [if_pos hq, alookup, if_pos rfl]
    · rw [if_neg hq, alookup, if_neg hq]
      rw [alookup, if_neg hq] at h
      exact ih h

/-- Lookup across an appended single entry. -/
theorem alookup_append_single {α : Type} (k : Str) (v : α) :
    ∀ (m : List (Str × α)) (x : Str),
    alookup x (m ++ [(k, v)])
      = if (alookup x m).isSome then alookup x m
        else if k = x then some v else none := by
  intro m
  induction m with
  | nil =>
    intro x
    simp only [List.nil_append, alookup]
    rfl
  | cons q rest ih =>
    intro x
    simp only [List.cons_append, alookup]
    by_cases hq : q.1 = x
    · rw [if_pos hq, if_pos hq]
      simp
    · rw [if_neg hq, if_neg hq]
      exact ih x

/-- Lookup after a JavaScript property assignment. -/
theorem alookup_upsert {α : Type} (m : List (Str × α)) (k : Str) (v : α) (x : Str) :
    alookup x (upsert m k v) = if k = x then some v else alookup x m := by
  unfold upsert
  by_cases h : (alookup k m).isSome = true
  · rw [if_pos h]
    by_cases hx : k = x
    · subst hx
      rw [if_pos rfl]
      exact alookup_map_replace_self k v m h
    · rw [if_neg hx]
      exact alookup_map_replace k v m x (fun e => hx e.symm)
  · rw [if_neg h, alookup_append_single]
    by_cases hx : k = x
    · subst hx
      rw [if_pos rfl]
      have hnone : alookup k m = none := by
        cases hm : alookup k m with
        | none => rfl
        | some w => rw [hm] at h; simp at h
      rw [hnone]
      simp
    · cases hm : alookup x m with
      | none => simp [hx, hm]
      | some w => simp [hx, hm]

/-- The centre component of the participant map built by the lifeline
phase is the pure `seqCenters` function: it does not depend on the
generator state. -/
theorem lifelinesPhase_pmap (n : Nat) :
    ∀ (ps : List (Nat × Str)) (g : Gen) (pmap : List (Str × (Str × Int)))
      (acc : List (Str × Int)),
    (∀ name, (alookup name pmap).map Prod.snd = alookup name acc) →
    ∀ name, (alookup name (lifelinesPhase n ps g pmap).2.1).map Prod.snd
      = alookup name (seqCentersAux ps acc) := by
  intro ps
  induction ps with
  | nil => intro g pmap acc h name; exact h name
  | cons p rest ih =>
    intro g pmap acc h name
    rw [lifelinesPhase, seqCentersAux]
    apply ih
    intro nm
    rw [alookup_upsert, alookup_upsert]
    by_cases he : p.2 = nm
    · rw [if_pos he, if_pos he]
      rfl
    · rw [if_neg he, if_neg he]
      exact h nm

/-- Lifeline cells are not edges. -/
theorem lifelinesPhase_flags (n : Nat) :
    ∀ (ps : List (Nat × Str)) (g : Gen) (pmap : List (Str × (Str × Int))),
    ∀ c ∈ (lifelinesPhase n ps g pmap).1, c.edge = false := by
  intro ps
  induction ps with
  | nil => intro g pmap c hc; simp [lifelinesPhase] at hc
  | cons p rest ih =>
    intro g pmap c hc
    rw [lifelinesPhase] at hc
    cases List.mem_cons.mp hc with
    | inl e => subst e; rfl
    | inr hm => exact ih _ _ c hm

/-- A centre lookup succeeds exactly for recorded participants. -/
theorem seqCentersAux_isSome :
    ∀ (ps : List (Nat × Str)) (acc : List (Str × Int)) (name : Str),
    (alookup name (seqCentersAux ps acc)).isSome = true
      ↔ (alookup name acc).isSome = true ∨ name ∈ ps.map Prod.snd := by
  intro ps
  induction ps with
  | nil => intro acc name; simp [seqCentersAux]
  | cons p rest ih =>
    intro acc name
    rw [seqCentersAux, ih]
    rw [alookup_upsert]
    by_cases he : p.2 = name
    · rw [if_pos he]
      simp [he]
    · rw [if_neg he]
      simp only [List.map_cons, List.mem_cons]
      constructor
      · intro h
        cases h with
        | inl h => exact Or.inl h
        | inr h => exact Or.inr (Or.inr h)
      · intro h
        cases h with
        | inl h => exact Or.inl h
        | inr h =>
          cases h with
          | inl h => exact absurd h.symm he
          | inr h => exact Or.inr h

/-- The five cells of a resolved interaction, written out: two anchor
points on the lifeline centres, two 10 x 20 activation bars 10 pixels
above the offset, and the message connector between the bars. -/
theorem mkInteraction_eq (sx tx : Int) (itn : Interaction) (y : Int) (g : Gen) :
    mkInteraction sx tx itn y g
      = ([{ id := intStr g.cellId, value := [], style := pointStyle,
            geometry := geomStr sx y 0 0, parent := "1".toList, vertex := true,
            edge := false, source := none, target := none },
          { id := intStr (g.cellId + 1), value := [], style := pointStyle,
            geometry := geomStr tx y 0 0, parent := "1".toList, vertex := true,
            edge := false, source := none, target := none },
          { id := intStr (g.cellId + 2), value := [], style := activationStyle,
            geometry := geomStr (sx - 5) (y - 10) 10 20, parent := "1".toList,
            vertex := true, edge := false, source := none, target := none },
          { id := intStr (g.cellId + 3), value := [], style := activationStyle,
            geometry := geomStr (tx - 5) (y - 10) 10 20, parent := "1".toList,
            vertex := true, edge := false, source := none, target := none },
          { id := intStr (g.cellId + 4), value := itn.message,
            style := seqEdgeBase ++ (if itn.dashed then "dashed=1;endArrow=open;".toList
              else "endFill=1;".toList),
            geometry := "relative=\"1\" as=\"geometry\"".toList, parent := "1".toList,
            vertex := false, edge := true,
            source := some (intStr (g.cellId + 2)),
            target := some (intStr (g.cellId + 3)) }],
         ⟨g.cellId + 5⟩) := rfl

/-- The interaction loop under all-resolved lookups: one edge cell per
interaction, in order; the k-th edge carries the k-th message and
connects two activation bars whose geometries sit at the accumulated
offset `y + 60 * k`, horizontally centred on the mapped participant
centres. -/
theorem seqLoop_spec (pmap : List (Str × (Str × Int))) :
    ∀ (itns : List Interaction) (y : Int) (g : Gen),
    (∀ i ∈ itns, (alookup i.from_ pmap).isSome = true
        ∧ (alookup i.to_ pmap).isSome = true) →
    ((seqLoop pmap itns y g).1.filter (fun c => c.edge)).length = itns.length
    ∧ (∀ (k : Nat) (itn : Interaction), itns.get? k = some itn →
        ∃ e, ((seqLoop pmap itns y g).1.filter (fun c => c.edge)).get? k = some e
          ∧ e.value = itn.message
          ∧ ∃ sa ta, sa ∈ (seqLoop pmap itns y g).1 ∧ ta ∈ (seqLoop pmap itns y g).1
              ∧ e.source = some sa.id ∧ e.target = some ta.id
              ∧ (∃ sc, alookup itn.from_ pmap = some sc
                    ∧ sa.geometry = geomStr (sc.2 - 5) (y + 60 * (k : Int) - 10) 10 20)
              ∧ (∃ tc, alookup itn.to_ pmap = some tc
                    ∧ ta.geometry = geomStr (tc.2 - 5) (y + 60 * (k : Int) - 10) 10 20)) := by
  intro itns
  induction itns with
  | nil =>
    intro y g h
    exact ⟨rfl, by intro k itn hk; simp at hk⟩
  | cons i rest ih =>
    intro y g h
    have hi := h i (List.mem_cons_self _ _)
    obtain ⟨sc, hsc⟩ : ∃ sc, alookup i.from_ pmap = some sc := by
      cases hm : alookup i.from_ pmap with
      | none => rw [hm] at hi; simp at hi
      | some sc => exact ⟨sc, rfl⟩
    obtain ⟨tc, htc⟩ : ∃ tc, alookup i.to_ pmap = some tc := by
      cases hm : alookup i.to_ pmap with
      | none => rw [hm] at hi; simp at hi
      | some tc => exact ⟨tc, rfl⟩
    have hloop : seqLoop pmap (i :: rest) y g
        = ((mkInteraction sc.2 tc.2 i y g).1
            ++ (seqLoop pmap rest (y + 60) (mkInteraction sc.2 tc.2 i y g).2).1,
           (seqLoop pmap rest (y + 60) (mkInteraction sc.2 tc.2 i y g).2).2) := by
      rw [seqLoop, hsc, htc]
    obtain ⟨ihlen, ihspec⟩ := ih (y + 60) (mkInteraction sc.2 tc.2 i y g).2
      (fun j hj => h j (List.mem_cons_of_mem _ hj))
    have hfilter : (seqLoop pmap (i :: rest) y g).1.filter (fun c => c.edge)
        = { id := intStr (g.cellId + 4), value := i.message,
            style := seqEdgeBase ++ (if i.dashed then "dashed=1;endArrow=open;".toList
              else "endFill=1;".toList),
            geometry := "relative=\"1\" as=\"geometry\"".toList, parent := "1".toList,
            vertex := false, edge := true,
            source := some (intStr (g.cellId + 2)),
            target := some (intStr (g.cellId + 3)) }
          :: (seqLoop pmap rest (y + 60) (mkInteraction sc.2 tc.2 i y g).2).1.filter
            (fun c => c.edge) := by
      rw [hloop]
      simp only [List.filter_append, mkInteraction_eq, List.filter_cons]
      simp
    constructor
    · rw [hfilter]
      simp only [List.length_cons]
      rw [ihlen]
    · intro k itn hk
      match k, hk with
      | 0, hk =>
        have hitn : itn = i := by
          simp only [List.get?] at hk
          exact (Option.some.injEq _ _ ▸ hk).symm
        subst hitn
        refine ⟨_, (by rw [hfilter]; rfl), rfl, ?_⟩
        refine
          ⟨{ id := intStr (g.cellId + 2), value := [], style := activationStyle,
             geometry := geomStr (sc.2 - 5) (y - 10) 10 20, parent := "1".toList,
             vertex := true, edge := false, source := none, target := none },
           { id := intStr (g.cellId + 3), value := [], style := activationStyle,
             geometry := geomStr (tc.2 - 5) (y - 10) 10 20, parent := "1".toList,
             vertex := true, edge := false, source := none, target := none }, ?_, ?_,
           rfl, rfl, ⟨sc, hsc, ?_⟩, ⟨tc, htc, ?_⟩⟩
        · rw [hloop]
          refine List.mem_append_left _ ?_
          rw [mkInteraction_eq]
          simp
        · rw [hloop]
          refine List.mem_append_left _ ?_
          rw [mkInteraction_eq]
          simp
        · have he : y + 60 * ((0 : Nat) : Int) - 10 = y - 10 := by simp
          rw [he]
        · have he : y + 60 * ((0 : Nat) : Int) - 10 = y - 10 := by simp
          rw [he]
      | k + 1, hk =>
        have hk' : rest.get? k = some itn := hk
        obtain ⟨e, he1, he2, sa, ta, hsa, hta, hes, het, ⟨sc', hsc', hg1⟩, ⟨tc', htc', hg2⟩⟩ :=
          ihspec k itn hk'
        have harith : (y + 60) + 60 * (k : Int) - 10 = y + 60 * ((k + 1 : Nat) : Int) - 10 := by
          push_cast
          ring
        refine ⟨e, ?_, he2, sa, ta, ?_, ?_, hes, het, ⟨sc', hsc', ?_⟩, ⟨tc', htc', ?_⟩⟩
        · rw [hfilter]
          simpa using he1
        · rw [hloop]
          exact List.mem_append_right _ hsa
        · rw [hloop]
          exact List.mem_append_right _ hta
        · rw [hg1, harith]
        · rw [hg2, harith]

/-- C10: in the sequence builder, when every interaction's participants
resolve, the k-th interaction's connector (in declared order) is
labeled with its message and drawn between activation bars centred on
the source and target participant's horizontal centre
(`100 + index * 200 + 50`) at the accumulated vertical offset
`130 + 60 * k` (the bars' 20-pixel geometry is centred there, 10 above
and 10 below). -/
theorem c10_sequence_offsets (participants : List Str) (itns : List Interaction)
    (g : Gen)
    (h : ∀ i ∈ itns, i.from_ ∈ participants ∧ i.to_ ∈ participants) :
    ((createSequenceDiagramCells participants itns g).1.filter (fun c => c.edge)).length
      = itns.length
    ∧ (∀ (k : Nat) (itn : Interaction), itns.get? k = some itn →
        ∃ e, ((createSequenceDiagramCells participants itns g).1.filter
              (fun c => c.edge)).get? k = some e
          ∧ e.value = itn.message
          ∧ ∃ sa ta, sa ∈ (createSequenceDiagramCells participants itns g).1
              ∧ ta ∈ (createSequenceDiagramCells participants itns g).1
              ∧ e.source = some sa.id ∧ e.target = some ta.id
              ∧ (∃ cx, alookup itn.from_ (seqCenters participants) = some cx
                    ∧ sa.geometry = geomStr (cx - 5) (130 + 60 * (k : Int) - 10) 10 20)
              ∧ (∃ cx, alookup itn.to_ (seqCenters participants) = some cx
                    ∧ ta.geometry = geomStr (cx - 5) (130 + 60 * (k : Int) - 10) 10 20)) := by
  set L := lifelinesPhase itns.length participants.enum g [] with hLdef
  have hdef : createSequenceDiagramCells participants itns g
      = (L.1 ++ (seqLoop L.2.1 itns 130 L.2.2).1, (seqLoop L.2.1 itns 130 L.2.2).2) := rfl
  have hcmap : ∀ name, (alookup name L.2.1).map Prod.snd
      = alookup name (seqCenters participants) :=
    lifelinesPhase_pmap itns.length participants.enum g [] [] (fun name => rfl)
  have hres : ∀ i ∈ itns, (alookup i.from_ L.2.1).isSome = true
      ∧ (alookup i.to_ L.2.1).isSome = true := by
    intro i hi
    obtain ⟨h1, h2⟩ := h i hi
    constructor
    · have hm := hcmap i.from_
      have hsc : (alookup i.from_ (seqCenters participants)).isSome = true := by
        unfold seqCenters
        rw [seqCentersAux_isSome]
        exact Or.inr (by rw [List.enum_map_snd]; exact h1)
      rw [← hm] at hsc
      rwa [Option.isSome_map'] at hsc
    · have hm := hcmap i.to_
      have hsc : (alookup i.to_ (seqCenters participants)).isSome = true := by
        unfold seqCenters
        rw [seqCentersAux_isSome]
        exact Or.inr (by rw [List.enum_map_snd]; exact h2)
      rw [← hm] at hsc
      rwa [Option.isSome_map'] at hsc
  obtain ⟨hl, hs⟩ := seqLoop_spec L.2.1 itns 130 L.2.2 hres
  have hlifefilter : (L.1.filter (fun c => c.edge)) = [] :=
    List.filter_eq_nil_iff.mpr (fun c hc => by
      simp [lifelinesPhase_flags itns.length participants.enum g [] c hc])
  constructor
  · rw [hdef]
    simp only [List.filter_append, hlifefilter, List.nil_append]
    exact hl
  · intro k itn hk
    obtain ⟨e, he1, he2, sa, ta, hsa, hta, hes, het, ⟨sc, hsc, hg1⟩, ⟨tc, htc, hg2⟩⟩ :=
      hs k itn hk
    refine ⟨e, ?_, he2, sa, ta, ?_, ?_, hes, het, ⟨sc.2, ?_, hg1⟩, ⟨tc.2, ?_, hg2⟩⟩
    · rw [hdef]
      simp only [List.filter_append, hlifefilter, List.nil_append]
      exact he1
    · rw [hdef]
      exact List.mem_append_right _ hsa
    · rw [hdef]
      exact List.mem_append_right _ hta
    · rw [← hcmap itn.from_, hsc]
      rfl
    · rw [← hcmap itn.to_, htc]
      rfl

/-- Participants of the witness scenario. -/
def seqParts : List Str := ["A".toList, "B".toList]

/-- A request message and a dashed reply. -/
def seqItns : List Interaction :=
  [{ from_ := "A".toList, to_ := "B".toList, message := "hello".toList, dashed := false },
   { from_ := "B".toList, to_ := "A".toList, message := "ok".toList, dashed := true }]

/-- C10: in the sequence builder, when every interaction's participants
resolve, the k-th interaction's connector (in declared order) is
labeled with its message and drawn between activation bars centred on
the source and target participant's horizontal centre
(`100 + index * 200 + 50`) at the accumulated vertical offset
`130 + 60 * k` (the bars' 20-pixel geometry is centred there, 10 above
and 10 below). -/
theorem c10_sequence_offsets_witness :
    (∀ i ∈ seqItns, i.from_ ∈ seqParts ∧ i.to_ ∈ seqParts)
    ∧ (((createSequenceDiagramCells seqParts seqItns Gen.fresh).1.filter
          (fun c => c.edge)).length = seqItns.length
       ∧ (∀ (k : Nat) (itn : Interaction), seqItns.get? k = some itn →
           ∃ e, ((createSequenceDiagramCells seqParts seqItns Gen.fresh).1.filter
                 (fun c => c.edge)).get? k = some e
             ∧ e.value = itn.message
             ∧ ∃ sa ta, sa ∈ (createSequenceDiagramCells seqParts seqItns Gen.fresh).1
                 ∧ ta ∈ (createSequenceDiagramCells seqParts seqItns Gen.fresh).1
                 ∧ e.source = some sa.id ∧ e.target = some ta.id
                 ∧ (∃ cx, alookup itn.from_ (seqCenters seqParts) = some cx
                       ∧ sa.geometry = geomStr (cx - 5) (130 + 60 * (k : Int) - 10) 10 20)
                 ∧ (∃ cx, alookup itn.to_ (seqCenters seqParts) = some cx
                       ∧ ta.geometry = geomStr (cx - 5) (130 + 60 * (k : Int) - 10) 10 20))) :=
  ⟨by decide, c10_sequence_offsets seqParts seqItns Gen.fresh (by decide)⟩
